import Mathlib

/-!
Verification development for the dashboard-ventas repository.

The Python sources (src/data_loader.py, src/api.py, src/app.py) are shallowly
embedded below: pandas dataframes become lists of typed rows, currency floats
become exact rationals, dates become (year, month, day) records, and fallible
pandas operations (column access on an empty frame, `pd.qcut` with a label
mismatch) return `Except String` values.  Each embedded definition mirrors one
Python function of the repository and keeps its name.
-/

set_option maxRecDepth 4000

namespace DashboardVentas

/-! ### Computable rational arithmetic

Python floats are modelled as exact rationals.  Mathlib marks the primitive
`Rat` operations irreducible, which blocks `decide` on concrete inputs, so the
embedding uses the following `Rat.divInt`-based wrappers, each proved equal to
the standard operation. -/

/-- Computable rational addition. -/
def qAdd (a b : Rat) : Rat :=
  Rat.divInt (a.num * b.den + b.num * a.den) ((a.den : Int) * (b.den : Int))

/-- Computable rational subtraction. -/
def qSub (a b : Rat) : Rat :=
  Rat.divInt (a.num * b.den - b.num * a.den) ((a.den : Int) * (b.den : Int))

/-- Computable rational multiplication. -/
def qMul (a b : Rat) : Rat :=
  Rat.divInt (a.num * b.num) ((a.den : Int) * (b.den : Int))

/-- Computable rational division (0 on division by 0, as for `Rat.div`). -/
def qDiv (a b : Rat) : Rat :=
  Rat.divInt (a.num * b.den) ((a.den : Int) * b.num)

theorem qAdd_eq (a b : Rat) : qAdd a b = a + b := by
  conv_rhs => rw [← Rat.num_divInt_den a, ← Rat.num_divInt_den b]
  rw [Rat.divInt_add_divInt _ _ (by exact_mod_cast a.den_nz) (by exact_mod_cast b.den_nz)]
  rfl

theorem qSub_eq (a b : Rat) : qSub a b = a - b := by
  conv_rhs => rw [← Rat.num_divInt_den a, ← Rat.num_divInt_den b]
  rw [Rat.divInt_sub_divInt _ _ (by exact_mod_cast a.den_nz) (by exact_mod_cast b.den_nz)]
  rfl

theorem qMul_eq (a b : Rat) : qMul a b = a * b := by
  conv_rhs => rw [← Rat.num_divInt_den a, ← Rat.num_divInt_den b]
  rw [Rat.divInt_mul_divInt _ _ (by exact_mod_cast a.den_nz) (by exact_mod_cast b.den_nz)]
  rfl

theorem qDiv_eq (a b : Rat) : qDiv a b = a / b := by
  rcases eq_or_ne b.num 0 with h0 | h0
  · have hb : b = 0 := by rwa [Rat.num_eq_zero] at h0
    subst hb
    simp [qDiv, Rat.divInt_zero]
  · rw [div_eq_mul_inv]
    conv_rhs => rw [← Rat.num_divInt_den a, ← Rat.num_divInt_den b]
    rw [Rat.inv_divInt', Rat.divInt_mul_divInt _ _ (by exact_mod_cast a.den_nz) h0]
    rfl

/-- Computable `Series.sum()`. -/
def ratSum (l : List Rat) : Rat := l.foldr qAdd 0

theorem ratSum_eq (l : List Rat) : ratSum l = l.sum := by
  induction l with
  | nil => rfl
  | cons a t ih => simp [ratSum, List.sum_cons, qAdd_eq] at ih ⊢; rw [ih]

/-! ### ASCII character helpers (model of Python `str.lower`, `\s`, `str.title`) -/

/-- Model of Python `str.lower` on one character (ASCII range, which covers the
catalog keys and labels the matcher compares). -/
def pyLowerChar (c : Char) : Char :=
  if 65 ≤ c.toNat ∧ c.toNat ≤ 90 then Char.ofNat (c.toNat + 32) else c

/-- Model of Python `str.upper` on one character (ASCII range). -/
def pyUpperChar (c : Char) : Char :=
  if 97 ≤ c.toNat ∧ c.toNat ≤ 122 then Char.ofNat (c.toNat - 32) else c

/-- Python whitespace class `\s` over ASCII: space, tab, newline, vertical tab,
form feed, carriage return. -/
def isPySpace (c : Char) : Bool :=
  c.toNat = 32 ∨ c.toNat = 9 ∨ c.toNat = 10 ∨ c.toNat = 11 ∨ c.toNat = 12 ∨ c.toNat = 13

/-- Lowercase ASCII letter. -/
def isLowerAlpha (c : Char) : Bool := 97 ≤ c.toNat ∧ c.toNat ≤ 122

/-- Uppercase ASCII letter. -/
def isUpperAlpha (c : Char) : Bool := 65 ≤ c.toNat ∧ c.toNat ≤ 90

/-- ASCII digit. -/
def isDigitChar (c : Char) : Bool := 48 ≤ c.toNat ∧ c.toNat ≤ 57

/-- ASCII letter (either case), the cased characters relevant to `str.title`. -/
def isAlphaChar (c : Char) : Bool := isLowerAlpha c || isUpperAlpha c

/-- ASCII letter or digit. -/
def isAlnumChar (c : Char) : Bool := isLowerAlpha c || isUpperAlpha c || isDigitChar c

/-! ### Substring search and removal (model of `str.replace(w, '')` / `in`) -/

/-- Does `pat` occur at the head of `s`? -/
def headMatch : List Char → List Char → Bool
  | [], _ => true
  | _ :: _, [] => false
  | p :: ps, c :: cs => p = c && headMatch ps cs

/-- Does `pat` occur anywhere in `s`?  Model of Python `pat in s`. -/
def containsOcc (pat : List Char) : List Char → Bool
  | [] => pat.isEmpty
  | c :: cs => headMatch pat (c :: cs) || containsOcc pat cs

/-- Fuel-driven worker for `removeOcc`; the fuel is an upper bound on the
length of the list, so the zero-fuel branch is never reached. -/
def removeOccF (pat : List Char) : Nat → List Char → List Char
  | _, [] => []
  | 0, l => l
  | fuel + 1, c :: cs =>
    if headMatch pat (c :: cs) && !pat.isEmpty then
      removeOccF pat fuel (List.drop (pat.length - 1) cs)
    else
      c :: removeOccF pat fuel cs

/-- Model of Python `s.replace(pat, '')`: delete every non-overlapping
occurrence of `pat`, scanning left to right without rescanning. -/
def removeOcc (pat l : List Char) : List Char := removeOccF pat l.length l

/-- Case-insensitive substring test, the model of
`Series.str.contains(pat, case=False)` for a plain-text pattern. -/
def containsCI (s pat : String) : Bool :=
  containsOcc (pat.toList.map pyLowerChar) (s.toList.map pyLowerChar)

/-! ### Whitespace splitting (model of Python `str.split()`) -/

/-- Fuel-driven worker for `splitWs`; the fuel is an upper bound on the length
of the list, so the zero-fuel branch is never reached. -/
def splitWsF : Nat → List Char → List (List Char)
  | _, [] => []
  | 0, _ => []
  | fuel + 1, c :: cs =>
    if isPySpace c then splitWsF fuel cs
    else (c :: cs.takeWhile (fun d => !isPySpace d))
      :: splitWsF fuel (cs.dropWhile (fun d => !isPySpace d))

/-- Model of Python `str.split()` with no argument: split on whitespace runs,
dropping empty fields. -/
def splitWs (l : List Char) : List (List Char) := splitWsF l.length l

/-- Model of Python `' '.join(tokens)`. -/
def joinSp : List (List Char) → List Char
  | [] => []
  | [t] => t
  | t :: ts => t ++ ' ' :: joinSp ts

/-! ### The string cleaner (data_loader.clean_str / clean_display_str) -/

/-- The noise words removed by `clean_str` (literal substring removal). -/
def noise_words : List String :=
  ["tapiz", "americano", "importado", "decorativo", "textil", "sintetico", "bondeado"]

/-- The color tokens dropped by `clean_str` (exact token match). -/
def colors_to_remove : List String :=
  ["negro", "black", "noir",
   "azul", "blue",
   "rojo", "red",
   "gris", "grey", "gray",
   "blanco", "white",
   "cafe", "brown", "marron",
   "verde", "green",
   "plata", "silver",
   "beige",
   "naranja", "orange",
   "rosa", "pink",
   "tabaco",
   "caramelo",
   "arena",
   "vino",
   "oscuro", "dark",
   "claro", "light"]

/-- The color list as character lists, for token comparison. -/
def colorTokens : List (List Char) := colors_to_remove.map String.toList

/-- `re.sub(r'[^a-z0-9\s]', ' ', s)` on one character. -/
def keepCleanChar (c : Char) : Char :=
  if isLowerAlpha c || isDigitChar c || isPySpace c then c else ' '

/-- The token pipeline of `clean_str`: lowercase, remove noise words by
substring deletion, replace symbols by spaces, split on whitespace, drop
color tokens. -/
def cleanTokens (s : String) : List (List Char) :=
  (splitWs ((noise_words.foldl (fun acc w => removeOcc w.toList acc)
    (s.toList.map pyLowerChar)).map keepCleanChar)).filter (fun p => !colorTokens.contains p)

/-- Embedding of `data_loader.clean_str`: lowercase, remove noise words by
substring deletion, replace symbols by spaces, then drop color tokens and
rejoin with single spaces.  Non-string input (handled by the Python guard) is
outside the `String` domain of this embedding. -/
def clean_str (s : String) : String := String.mk (joinSp (cleanTokens s))

/-- `re.sub(r'[^a-zA-Z0-9\s]', ' ', s)` on one character. -/
def keepDisplayChar (c : Char) : Char :=
  if isAlnumChar c || isPySpace c then c else ' '

/-- Model of Python `str.title()` over ASCII: uppercase every letter that does
not follow a letter, lowercase every other letter. -/
def titleGo : Bool → List Char → List Char
  | _, [] => []
  | prevAlpha, c :: cs =>
    (if isAlphaChar c then (if prevAlpha then pyLowerChar c else pyUpperChar c) else c)
      :: titleGo (isAlphaChar c) cs

/-- Embedding of `data_loader.clean_display_str`: strip symbols, collapse
whitespace, Title Case. -/
def clean_display_str (s : String) : String :=
  let s1 := s.toList.map keepDisplayChar
  let parts := splitWs s1
  String.mk (titleGo false (joinSp parts))

/-! ### Fuzzy matching (thefuzz `fuzz.ratio` / `process.extractOne`) -/

/-- One dynamic-programming cell row-extension step for the indel/substitution
distance with substitution cost 2 (the distance underlying `fuzz.ratio`).
`left` is the already-computed cell to the left of the next cell. -/
def levAux (ca : Char) : List Char → List Nat → Nat → List Nat
  | [], _, _ => []
  | cb :: bs, prev, left =>
    let diag := prev.headD 0
    let up := prev.tail.headD 0
    let cost := if ca = cb then 0 else 2
    let cur := min (min (up + 1) (left + 1)) (diag + cost)
    cur :: levAux ca bs prev.tail cur

/-- Extend the DP table by one row (one further character of the first word). -/
def levStep (b : List Char) (prev : List Nat) (ca : Char) : List Nat :=
  let first := prev.headD 0 + 1
  first :: levAux ca b prev first

/-- Weighted edit distance with substitution cost 2 (insert/delete cost 1),
as used by `Levenshtein.ratio`, the scorer behind `fuzz.ratio`. -/
def levDist2 (a b : List Char) : Nat :=
  (a.foldl (levStep b) (List.range (b.length + 1))).getLastD 0

/-- Embedding of `fuzz.ratio`: `round(100 * (lensum - dist) / lensum)` with
`dist` the substitution-cost-2 edit distance; 100 when both strings are empty.
Rounding of a nonnegative rational `n / m` is `(2n + m) / 2m` rounded down. -/
def fuzzRatio (a b : String) : Nat :=
  let la := a.length
  let lb := b.length
  if la + lb = 0 then 100
  else
    let d := levDist2 a.toList b.toList
    (2 * (100 * (la + lb - d)) + (la + lb)) / (2 * (la + lb))

/-- Scan of the candidate list keeping the best score; an earlier candidate is
kept on ties, matching `process.extractOne`. -/
def bestMatch (q : String) : List String → Option (String × Nat) → Option (String × Nat)
  | [], acc => acc
  | k :: ks, acc =>
    let s := fuzzRatio q k
    let acc2 :=
      match acc with
      | none => some (k, s)
      | some (bk, bs) => if bs < s then some (k, s) else some (bk, bs)
    bestMatch q ks acc2

/-- Embedding of `process.extractOne(q, ks, scorer=fuzz.ratio, score_cutoff=cut)`:
the first highest-scoring candidate, provided its score reaches the cutoff. -/
def extractOne (q : String) (ks : List String) (cutoff : Nat) : Option String :=
  match bestMatch q ks none with
  | none => none
  | some (k, s) => if cutoff ≤ s then some k else none

/-! ### Canonical catalog and the matcher (data_loader.normalize_products) -/

/-- Modelled from the spec: the repository imports `CANONICAL_PRODUCTS` from a
`product_catalog` module that is not among the provided source files.  Per the
spec it is a fixed, ordered master list of canonical product names, loaded once
at process start.  A small representative fixed list stands in for it here;
every universal theorem below is proved for an arbitrary catalog and only the
concrete witnesses evaluate this list. -/
def CANONICAL_PRODUCTS : List String :=
  ["ARRENDAMIENTO", "VINIL AUTOMOTRIZ", "PIEL SINTETICA CLASICA", "TELA MICROFIBRA PREMIUM"]

/-- Insert into an association list, overwriting the value of an existing key
in place (Python dict semantics: first-insertion position, last value). -/
def dictInsert (k v : String) : List (String × String) → List (String × String)
  | [] => [(k, v)]
  | (k1, v1) :: rest => if k1 = k then (k, v) :: rest else (k1, v1) :: dictInsert k v rest

/-- Association-list lookup. -/
def lookupA (k : String) : List (String × String) → Option String
  | [] => none
  | (k1, v1) :: rest => if k1 = k then some v1 else lookupA k rest

/-- `{clean_str(p): p for p in CANONICAL_PRODUCTS}` — the pre-cleaned catalog
index; a later product overwrites an earlier one cleaning to the same key. -/
def canonicalMap (catalog : List String) : List (String × String) :=
  catalog.foldl (fun d p => dictInsert (clean_str p) p d) []

/-- `list(canonical_map.keys())`. -/
def canonicalKeys (catalog : List String) : List String :=
  (canonicalMap catalog).map Prod.fst

/-- The literal collapsed rental-fee product. -/
def arrStr : String := "ARRENDAMIENTO"

/-- The per-distinct-label mapping built inside `normalize_products`: the
`'ARRENDAMIENTO'` short-circuit, then exact match on the cleaned form, then
fuzzy match at cutoff 85, then the cleaned display fallback. -/
def mapProduct (catalog : List String) (name : String) : String :=
  if name = arrStr then name
  else
    match lookupA (clean_str name) (canonicalMap catalog) with
    | some canon => canon
    | none =>
      match extractOne (clean_str name) (canonicalKeys catalog) 85 with
      | some key => (lookupA key (canonicalMap catalog)).getD name
      | none => clean_display_str name

/-- The full matcher applied to one raw label: the dataframe pass first
rewrites any label containing `ARRENDAMIENTO` (case-insensitively) to the
literal, and the mapping then sends the literal to itself. -/
def matchLabel (catalog : List String) (raw : String) : String :=
  if containsCI raw arrStr then arrStr else mapProduct catalog raw

/-! ### Dates -/

/-- A parsed calendar date (the loader parses `fecha` with format `%d/%m/%Y`);
rows whose date fails to parse are excluded from the date-valid tables this
embedding quantifies over. -/
structure Date where
  year : Nat
  month : Nat
  day : Nat
deriving DecidableEq, Repr

/-- Day count since 1970-01-01 (civil-calendar formula); differences of
timestamps, `(a - b).dt.days` in pandas, are differences of these counts. -/
def Date.toDays (d : Date) : Int :=
  let y : Int := if d.month ≤ 2 then (d.year : Int) - 1 else (d.year : Int)
  let era : Int := y / 400
  let yoe : Int := y - era * 400
  let mp : Int := ((d.month : Int) + 9) % 12
  let doy : Int := (153 * mp + 2) / 5 + (d.day : Int) - 1
  let doe : Int := yoe * 365 + yoe / 4 - yoe / 100 + doy
  era * 146097 + doe - 719468

/-- Gregorian leap year. -/
def isLeap (y : Nat) : Bool := (y % 4 = 0 && y % 100 ≠ 0) || y % 400 = 0

/-- Number of days of month `m` of year `y`; the value computed by
`(today.replace(month=m+1, day=1) - timedelta(days=1)).day`. -/
def monthLength (y m : Nat) : Nat :=
  if m = 2 then (if isLeap y then 29 else 28)
  else if m = 4 ∨ m = 6 ∨ m = 9 ∨ m = 11 then 30
  else 31

/-! ### The transaction table -/

/-- One invoice line of the loaded table after type coercion: the columns the
aggregation functions read.  `producto_normalizado` and `producto_original`
are empty until `normalize_products` fills them. -/
structure Row where
  factura_id : String
  cliente_nombre : String
  producto : String
  producto_normalizado : String
  producto_original : String
  fecha : Date
  venta_neta : Rat
  cantidad : Rat
deriving DecidableEq, Repr

/-- A fallback row for total indexing. -/
def dRow : Row := ⟨("F0"), ("C0"), ("P0"), (""), (""), ⟨2000, 1, 1⟩, 0, 0⟩

/-- A loaded dataframe: either the column-less empty frame `pd.DataFrame()`
that `load_data` returns when reading fails, or a table of typed rows with
the standard sales columns. -/
inductive DataFrame where
  | empty
  | table (rows : List Row)
deriving DecidableEq, Repr

/-- Access the rows through a named column: on the empty fallback frame the
first column subscript (or `groupby` key) raises `KeyError`, modelled as an
`Except.error` naming the column. -/
def DataFrame.rowsOr (col : String) : DataFrame → Except String (List Row)
  | .empty => .error (("KeyError: ") ++ col)
  | .table rs => .ok rs

/-- `Series.nunique()` for a string column. -/
def nuniqueStr (l : List String) : Nat := l.dedup.length

/-! ### normalize_products (data_loader.normalize_products) -/

/-- The `df.loc[contains('ARRENDAMIENTO'), 'producto'] = 'ARRENDAMIENTO'`
pass applied to one row. -/
def collapseArr (r : Row) : Row :=
  if containsCI r.producto arrStr then { r with producto := arrStr } else r

/-- Embedding of `data_loader.normalize_products`: collapse rental-fee labels,
build the per-distinct-label mapping, then write `producto_normalizado`,
`producto_original`, and overwrite the working `producto` column. -/
def normalize_products (catalog : List String) (rows : List Row) : List Row :=
  let rows1 := rows.map collapseArr
  let uniq := (rows1.map (fun r => r.producto)).dedup
  let mapping := uniq.map (fun n => (n, mapProduct catalog n))
  rows1.map (fun r =>
    let norm := (lookupA r.producto mapping).getD r.producto
    { r with producto_normalizado := norm, producto_original := r.producto, producto := norm })

/-! ### get_kpis (data_loader.get_kpis) -/

/-- The record returned by `get_kpis`. -/
structure Kpis where
  total_revenue : Rat
  total_orders : Nat
  total_items : Rat
  avg_order_value : Rat
deriving DecidableEq, Repr

/-- Embedding of `data_loader.get_kpis`: totals, distinct invoice count, and
the division-guarded average order value. -/
def get_kpis (df : DataFrame) : Except String Kpis := do
  let rows ← df.rowsOr ("venta_neta")
  let total_revenue := ratSum (rows.map (fun r => r.venta_neta))
  let total_orders := nuniqueStr (rows.map (fun r => r.factura_id))
  let total_items := ratSum (rows.map (fun r => r.cantidad))
  let avg_order_value := if 0 < total_orders then qDiv total_revenue ((total_orders : Nat) : Rat) else 0
  pure ⟨total_revenue, total_orders, total_items, avg_order_value⟩

/-! ### Shared aggregation helpers (groupby, sorting, rounding) -/

/-- Lexicographic comparison of character lists by code point. -/
def lexLeB : List Char → List Char → Bool
  | [], _ => true
  | _ :: _, [] => false
  | a :: as1, b :: bs1 =>
    if a.toNat < b.toNat then true
    else if b.toNat < a.toNat then false
    else lexLeB as1 bs1

/-- String order used by `groupby` (Python string comparison). -/
def strLeB (a b : String) : Bool := lexLeB a.toList b.toList

/-- The distinct group keys of a `groupby`, in sorted order (pandas sorts the
group keys by default). -/
def groupKeys (l : List String) : List String :=
  List.insertionSort (fun a b => strLeB a b = true) l.dedup

/-- Maximum of a list of integers (0 for the empty list, which the callers
never hit on the paths the claims exercise). -/
def listMaxI : List Int → Int
  | [] => 0
  | a :: t => t.foldl max a

/-- Maximum of a list of rationals. -/
def listMaxR : List Rat → Rat
  | [] => 0
  | a :: t => t.foldl max a

/-- The latest `fecha` of a group of rows (`agg 'max'` on the date column). -/
def lastDateOf : List Row → Date
  | [] => ⟨1970, 1, 1⟩
  | r :: t => t.foldl (fun acc x => if acc.toDays < x.fecha.toDays then x.fecha else acc) r.fecha

/-- Python `round()` on an exact rational: round half to even. -/
def pyRound (x : Rat) : Int :=
  let f := x.floor
  let fr := qSub x (f : Rat)
  if fr < Rat.divInt 1 2 then f
  else if Rat.divInt 1 2 < fr then f + 1
  else if f % 2 = 0 then f else f + 1

/-- Python `round(x, nd)` on an exact rational. -/
def roundTo (nd : Nat) (x : Rat) : Rat :=
  qDiv ((pyRound (qMul x (((10 ^ nd : Nat) : Int) : Rat))) : Rat) (((10 ^ nd : Nat) : Int) : Rat)

/-- Zero-padded two-digit rendering for ISO dates. -/
def pad2 (n : Nat) : String := if n < 10 then ("0") ++ toString n else toString n

/-- `strftime('%Y-%m-%d')`. -/
def Date.iso (d : Date) : String :=
  toString d.year ++ ("-") ++ pad2 d.month ++ ("-") ++ pad2 d.day

/-- `strftime('%B')` (English month name). -/
def monthName (m : Nat) : String :=
  (["January", "February", "March", "April", "May", "June", "July",
    "August", "September", "October", "November", "December"]).getD (m - 1) ("")

/-- Insert a thousands separator after every third digit (digits reversed). -/
def groupRev : List Char → Nat → List Char
  | [], _ => []
  | c :: cs, k => if k = 3 then ',' :: c :: groupRev cs 1 else c :: groupRev cs (k + 1)

/-- Python format `'{:,.0f}'`: round to integer, group thousands. -/
def formatMoney (x : Rat) : String :=
  let n := pyRound x
  let ds := (toString n.natAbs).toList
  (if n < 0 then ("-") else ("")) ++ String.mk (groupRev ds.reverse 0).reverse

/-! ### get_monthly_comparison_data (api.py) -/

/-- One row of the per-year `groupby` inside the monthly comparison
(source column names: `año`, `ventas`, `transacciones`, `cantidad`). -/
structure YearSales where
  anio : Nat
  ventas : Rat
  transacciones : Nat
  cantidad : Rat
deriving DecidableEq, Repr

/-- The dictionary returned by `get_monthly_comparison_data`
(`año_actual`/`historico_por_año` transliterated to ASCII names). -/
structure MonthlyOut where
  mes_actual : String
  numero_mes : Nat
  anio_actual : Nat
  ventas_actuales : Rat
  dias_transcurridos : Nat
  dias_en_mes : Nat
  ventas_proyectadas : Rat
  promedio_historico : Rat
  maximo_historico : Rat
  meta_sugerida : Rat
  porcentaje_meta : Rat
  historico_por_anio : List YearSales
deriving DecidableEq, Repr

/-- `df[df['fecha'].dt.month == current_month]`. -/
def dfMonth (rows : List Row) (m : Nat) : List Row :=
  rows.filter (fun r => decide (r.fecha.month = m))

/-- The per-year aggregate row of the month filter (`groupby(year).agg`). -/
def ysOf (rows : List Row) (m y : Nat) : YearSales :=
  ⟨y,
    ratSum (((dfMonth rows m).filter (fun r => decide (r.fecha.year = y))).map (fun r => r.venta_neta)),
    nuniqueStr (((dfMonth rows m).filter (fun r => decide (r.fecha.year = y))).map (fun r => r.factura_id)),
    ratSum (((dfMonth rows m).filter (fun r => decide (r.fecha.year = y))).map (fun r => r.cantidad))⟩

/-- `yearly_sales`: the per-year `groupby` (ascending keys) re-sorted by
`sort_values('año', ascending=False)`. -/
def yearlySales (rows : List Row) (m : Nat) : List YearSales :=
  List.insertionSort (fun a b : YearSales => b.anio ≤ a.anio)
    ((List.insertionSort (fun a b : Nat => a ≤ b)
      (((dfMonth rows m).map (fun r => r.fecha.year)).dedup)).map (ysOf rows m))

/-- `historical = yearly_sales[yearly_sales['año'] < current_year]`. -/
def historicalOf (rows : List Row) (today : Date) : List YearSales :=
  (yearlySales rows today.month).filter (fun s => decide (s.anio < today.year))

/-- `current = yearly_sales[yearly_sales['año'] == current_year]`. -/
def currentOf (rows : List Row) (today : Date) : List YearSales :=
  (yearlySales rows today.month).filter (fun s => decide (s.anio = today.year))

/-- `avg_sales = historical['ventas'].mean() if not historical.empty else 0`. -/
def avgSales (rows : List Row) (today : Date) : Rat :=
  if (historicalOf rows today).length = 0 then 0
  else qDiv (ratSum ((historicalOf rows today).map (fun s => s.ventas)))
    (((historicalOf rows today).length : Nat) : Rat)

/-- `max_sales = historical['ventas'].max() if not historical.empty else 0`. -/
def maxSales (rows : List Row) (today : Date) : Rat :=
  if (historicalOf rows today).length = 0 then 0
  else listMaxR ((historicalOf rows today).map (fun s => s.ventas))

/-- `current_sales = current['ventas'].sum() if not current.empty else 0`
(the sum of an empty frame is 0 either way). -/
def currentSales (rows : List Row) (today : Date) : Rat :=
  ratSum ((currentOf rows today).map (fun s => s.ventas))

/-- `days_in_month`: last day of the current month (December hardcoded 31). -/
def daysInMonthOf (today : Date) : Nat :=
  if today.month < 12 then monthLength today.year today.month else 31

/-- `projected_sales = current_sales / days_elapsed * days_in_month` with the
zero-days guard. -/
def projectedSales (rows : List Row) (today : Date) : Rat :=
  if 0 < today.day
  then qMul (qDiv (currentSales rows today) (((today.day : Nat)) : Rat))
    (((daysInMonthOf today : Nat)) : Rat)
  else 0

/-- Embedding of `api.get_monthly_comparison_data`: filter to the current
calendar month number, group by calendar year, average the years strictly
before the current one, suggest 110% of that average, and project the month
total from the per-day run rate (guarding `days_elapsed = 0`). -/
def get_monthly_comparison_data (df : DataFrame) (today : Date) : Except String MonthlyOut := do
  let rows ← df.rowsOr ("fecha")
  pure
    { mes_actual := monthName today.month
      numero_mes := today.month
      anio_actual := today.year
      ventas_actuales := roundTo 2 (currentSales rows today)
      dias_transcurridos := today.day
      dias_en_mes := daysInMonthOf today
      ventas_proyectadas := roundTo 2 (projectedSales rows today)
      promedio_historico := roundTo 2 (avgSales rows today)
      maximo_historico := roundTo 2 (maxSales rows today)
      meta_sugerida := roundTo 2 (qMul (avgSales rows today) (Rat.divInt 11 10))
      porcentaje_meta := if 0 < avgSales rows today
        then roundTo 1 (qMul (qDiv (currentSales rows today) (avgSales rows today)) 100) else 0
      historico_por_anio := yearlySales rows today.month }

/-! ### get_inactive_customers_data (api.py) -/

/-- One row of the customer `groupby` (`cust_stats` in the source), with the
derived `dias_sin_compra` column. -/
structure CustStat where
  cliente : String
  total_ventas : Rat
  ultima_compra : Date
  transacciones : Nat
  cantidad : Rat
  dias_sin_compra : Int
deriving DecidableEq, Repr

/-- `df.groupby('cliente_nombre').agg(...)` plus the days-inactive column:
one stat row per distinct customer name (sorted keys), with revenue total,
latest purchase date, transaction count and quantity total. -/
def custStats (rows : List Row) (today : Date) : List CustStat :=
  (groupKeys (rows.map (fun r => r.cliente_nombre))).map (fun nm =>
    let g := rows.filter (fun r => decide (r.cliente_nombre = nm))
    let last := lastDateOf g
    { cliente := nm
      total_ventas := ratSum (g.map (fun r => r.venta_neta))
      ultima_compra := last
      transacciones := g.length
      cantidad := ratSum (g.map (fun r => r.cantidad))
      dias_sin_compra := today.toDays - last.toDays })

/-- One serialized record of `clientes_prioritarios` (`ultima_compra`
rendered by `strftime('%Y-%m-%d')`, `total_ventas` rounded to 2 decimals). -/
structure CustRec where
  cliente : String
  total_ventas : Rat
  ultima_compra : String
  transacciones : Nat
  cantidad : Rat
  dias_sin_compra : Int
deriving DecidableEq, Repr

/-- The dictionary returned by `get_inactive_customers_data`. -/
structure InactiveOut where
  umbral_dias : Nat
  clientes_inactivos_total : Nat
  valor_en_riesgo : Rat
  clientes_prioritarios : List CustRec
deriving DecidableEq, Repr

/-- Embedding of `api.get_inactive_customers_data`: per-customer stats, keep
the relevant customers (more than 3 transactions or more than 5000 revenue),
keep those inactive strictly longer than the threshold, sort by revenue
descending, and report the top 20 with the total value at risk. -/
def get_inactive_customers_data (df : DataFrame) (today : Date) (days_threshold : Nat) :
    Except String InactiveOut := do
  let rows ← df.rowsOr ("cliente_nombre")
  let cust_stats := custStats rows today
  let relevant := cust_stats.filter (fun s => decide (3 < s.transacciones ∨ (5000 : Rat) < s.total_ventas))
  let inactive := List.insertionSort (fun a b : CustStat => b.total_ventas ≤ a.total_ventas)
    (relevant.filter (fun s => decide ((days_threshold : Int) < s.dias_sin_compra)))
  let potential_lost := ratSum (inactive.map (fun s => s.total_ventas))
  let inactive_list := (inactive.take 20).map (fun s =>
    ({ cliente := s.cliente
       total_ventas := roundTo 2 s.total_ventas
       ultima_compra := s.ultima_compra.iso
       transacciones := s.transacciones
       cantidad := s.cantidad
       dias_sin_compra := s.dias_sin_compra } : CustRec))
  pure
    { umbral_dias := days_threshold
      clientes_inactivos_total := inactive.length
      valor_en_riesgo := roundTo 2 potential_lost
      clientes_prioritarios := inactive_list }

/-! ### get_stale_products_data (api.py) -/

/-- One row of the product `groupby` (`prod_stats` in the source). -/
structure ProdStat where
  producto : String
  total_ventas : Rat
  ultima_venta : Date
  transacciones : Nat
  cantidad : Rat
  dias_sin_venta : Int
deriving DecidableEq, Repr

/-- One serialized record of the `productos` list. -/
structure ProdRec where
  producto : String
  total_ventas : Rat
  ultima_venta : String
  transacciones : Nat
  cantidad : Rat
  dias_sin_venta : Int
deriving DecidableEq, Repr

/-- The dictionary returned by `get_stale_products_data`. -/
structure StaleOut where
  umbral_dias : Nat
  productos_afectados : Nat
  productos : List ProdRec
deriving DecidableEq, Repr

/-- `df.groupby('producto').agg(...)` plus the days-without-sale column. -/
def prodStats (rows : List Row) (today : Date) : List ProdStat :=
  (groupKeys (rows.map (fun r => r.producto))).map (fun nm =>
    let g := rows.filter (fun r => decide (r.producto = nm))
    let last := lastDateOf g
    { producto := nm
      total_ventas := ratSum (g.map (fun r => r.venta_neta))
      ultima_venta := last
      transacciones := g.length
      cantidad := ratSum (g.map (fun r => r.cantidad))
      dias_sin_venta := today.toDays - last.toDays })

/-- Embedding of `api.get_stale_products_data`: the 50 products with the
largest historical revenue (`nlargest`), filtered to those without a sale for
strictly more than the threshold, sorted by revenue descending. -/
def get_stale_products_data (df : DataFrame) (today : Date) (days_threshold : Nat) :
    Except String StaleOut := do
  let rows ← df.rowsOr ("producto")
  let prod_stats := prodStats rows today
  let top_products := (List.insertionSort (fun a b : ProdStat => b.total_ventas ≤ a.total_ventas) prod_stats).take 50
  let stale := List.insertionSort (fun a b : ProdStat => b.total_ventas ≤ a.total_ventas)
    (top_products.filter (fun s => decide ((days_threshold : Int) < s.dias_sin_venta)))
  let stale_list := stale.map (fun s =>
    ({ producto := s.producto
       total_ventas := roundTo 2 s.total_ventas
       ultima_venta := s.ultima_venta.iso
       transacciones := s.transacciones
       cantidad := s.cantidad
       dias_sin_venta := s.dias_sin_venta } : ProdRec))
  pure
    { umbral_dias := days_threshold
      productos_afectados := stale.length
      productos := stale_list }

/-! ### generate_executive_summary (api.py) -/

/-- Numeric rendering of the interpolated percentage values; Python prints the
float value, modelled here by the rational's string form. -/
def ratStr (x : Rat) : String := toString x

/-- Embedding of `api.generate_executive_summary`: compose the monthly
comparison, inactivity and staleness reports into fixed message templates
keyed by threshold bands, joined with single spaces. -/
def generate_executive_summary (df : DataFrame) (today : Date) : Except String String := do
  let meta ← get_monthly_comparison_data df today
  let inactive ← get_inactive_customers_data df today 90
  let stale ← get_stale_products_data df today 60
  let part1 :=
    if meta.porcentaje_meta < 80 then
      ("⚠️ ALERTA: Las ventas de ") ++ meta.mes_actual ++ (" están al ")
        ++ ratStr meta.porcentaje_meta ++ ("% de la meta. Ventas actuales: $")
        ++ formatMoney meta.ventas_actuales ++ (", Meta: $")
        ++ formatMoney meta.meta_sugerida ++ (".")
    else if 100 ≤ meta.porcentaje_meta then
      ("✅ EXCELENTE: Las ventas de ") ++ meta.mes_actual ++ (" superan la meta (")
        ++ ratStr meta.porcentaje_meta ++ ("%). Ventas: $")
        ++ formatMoney meta.ventas_actuales ++ (".")
    else
      ("📊 Las ventas de ") ++ meta.mes_actual ++ (" están al ")
        ++ ratStr meta.porcentaje_meta ++ ("% de la meta. Faltan $")
        ++ formatMoney (qSub meta.meta_sugerida meta.ventas_actuales) ++ (" para alcanzarla.")
  let parts2 :=
    if 0 < inactive.clientes_inactivos_total then
      [("👥 Hay ") ++ toString inactive.clientes_inactivos_total
        ++ (" clientes sin comprar en más de 90 días, representando $")
        ++ formatMoney inactive.valor_en_riesgo ++ (" en ventas históricas.")]
    else []
  let parts3 :=
    if 0 < stale.productos_afectados then
      [("📦 ") ++ toString stale.productos_afectados
        ++ (" productos populares no se han vendido en más de 60 días. Revisar inventario y promociones.")]
    else []
  pure (String.intercalate (" ") ([part1] ++ parts2 ++ parts3))

/-! ### The load/upload/cache cycle (data_loader.load_data, api.upload_data,
app.render_config)

`load_data` is wrapped in `@st.cache_data`, whose key is the function
argument, i.e. the file path.  The file system and the cache are modelled as
association lists; a file's content is the list of typed rows it parses to,
`none` standing for an unreadable path (the `except` branch of `load_data`). -/

/-- Association-list lookup (generic values). -/
def alistFind {α : Type} (k : String) : List (String × α) → Option α
  | [] => none
  | (k1, v) :: rest => if k1 = k then some v else alistFind k rest

/-- Association-list overwrite-or-append (generic values). -/
def alistPut {α : Type} (k : String) (v : α) : List (String × α) → List (String × α)
  | [] => [(k, v)]
  | (k1, v1) :: rest => if k1 = k then (k, v) :: rest else (k1, v1) :: alistPut k v rest

/-- The pure body of `load_data` applied to a file's content: a readable file
is coerced and normalized into a table; a failed read yields the empty frame
(the `except Exception` branch). -/
def load_pure (fd : Option (List Row)) : DataFrame :=
  match fd with
  | some rs => .table (normalize_products CANONICAL_PRODUCTS rs)
  | none => .empty

/-- The module-level state: the file system and the `st.cache_data` cache,
keyed by the path argument of `load_data`. -/
structure LoaderState where
  fs : List (String × Option (List Row))
  cache : List (String × DataFrame)
deriving DecidableEq, Repr

/-- Embedding of the cached `load_data(file_path)`: a cache hit returns the
stored table unchanged; a miss computes the table from the file's current
content and stores it under the path. -/
def load_data (s : LoaderState) (p : String) : DataFrame × LoaderState :=
  match alistFind p s.cache with
  | some df => (df, s)
  | none =>
    let df := load_pure ((alistFind p s.fs).getD none)
    (df, ⟨s.fs, (p, df) :: s.cache⟩)

/-- Embedding of `api.upload_data`: overwrite the file at the fixed data path
with the uploaded content.  The endpoint does not touch the cache. -/
def upload_data (s : LoaderState) (p : String) (content : List Row) : LoaderState :=
  ⟨alistPut p (some content) s.fs, s.cache⟩

/-- Embedding of `st.cache_data.clear()`, invoked by the dashboard's upload
flow (`app.render_config`) after a successful file write. -/
def clear_cache (s : LoaderState) : LoaderState := ⟨s.fs, []⟩

/-! ### calculate_rfm_scores (app.py) -/

/-- Keep one representative of every run of equal adjacent values: the effect
of `np.unique` on an already sorted list of quantile edges, which is how
`pd.qcut(..., duplicates='drop')` deduplicates its bin edges. -/
def dedupAdj : List Rat → List Rat
  | [] => []
  | [a] => [a]
  | a :: b :: rest => if a = b then dedupAdj (b :: rest) else a :: dedupAdj (b :: rest)

/-- Linear-interpolation quantile of a sorted list, the default
`Series.quantile` used by `pd.qcut`. -/
def quantileAt (xs : List Rat) (p : Rat) : Rat :=
  let n := xs.length
  if n = 0 then 0
  else
    let h := qMul p ((n - 1 : Nat) : Rat)
    let i := ⌊h⌋.toNat
    if i + 1 < n then
      let lo := xs.getD i 0
      let hi := xs.getD (i + 1) 0
      qAdd lo (qMul (qSub h ((i : Nat) : Rat)) (qSub hi lo))
    else xs.getD (n - 1) 0

/-- The six quintile bin edges `quantile([0, .2, .4, .6, .8, 1])`. -/
def quintileEdges (xs : List Rat) : List Rat :=
  [quantileAt xs 0, quantileAt xs (Rat.divInt 1 5), quantileAt xs (Rat.divInt 2 5),
   quantileAt xs (Rat.divInt 3 5), quantileAt xs (Rat.divInt 4 5), quantileAt xs 1]

/-- Sorting a data column ascending. -/
def sortRats (l : List Rat) : List Rat := List.insertionSort (fun a b : Rat => a ≤ b) l

/-- Embedding of `pd.qcut(data, 5, labels=labels, duplicates='drop')` followed
by `astype(int)`: compute the quintile edges of the data, drop duplicate
edges, and — exactly as pandas does — raise `ValueError` when the supplied
labels no longer match the bin count.  A value falls in the right-closed bin
whose inner left edge is the last one strictly below it. -/
def qcut5 (data : List Rat) (labels : List Nat) : Except String (List Nat) :=
  let uedges := dedupAdj (quintileEdges (sortRats data))
  if labels.length = uedges.length - 1 then
    .ok (data.map (fun v => labels.getD ((uedges.tail.takeWhile (fun e => decide (e < v))).length) 0))
  else .error ("Bin labels must be one fewer than the number of bin edges")

/-- `Series.rank(method='first')`: 1-based rank by value, ties resolved by
position. -/
def rankFirst (data : List Rat) : List Rat :=
  (List.range data.length).map (fun i =>
    (((1 + (data.filter (fun x => decide (x < data.getD i 0))).length
        + ((data.take i).filter (fun x => decide (x = data.getD i 0))).length : Nat)) : Rat))

/-- The rows of one customer (`groupby('cliente_nombre')` group). -/
def grpCli (rows : List Row) (nm : String) : List Row :=
  rows.filter (fun r => decide (r.cliente_nombre = nm))

/-- A customer's latest purchase, as a day number (`agg 'max'` on `fecha`). -/
def custLastDays (rows : List Row) (nm : String) : Int :=
  listMaxI ((grpCli rows nm).map (fun r => r.fecha.toDays))

/-- A customer's distinct invoice count (`agg 'nunique'` on `factura_id`). -/
def custFreq (rows : List Row) (nm : String) : Nat :=
  nuniqueStr ((grpCli rows nm).map (fun r => r.factura_id))

/-- A customer's total revenue (`agg 'sum'` on `venta_neta`). -/
def custMoney (rows : List Row) (nm : String) : Rat :=
  ratSum ((grpCli rows nm).map (fun r => r.venta_neta))

/-- The customer group keys of the RFM table. -/
def rfmNames (rows : List Row) : List String := groupKeys (rows.map (fun r => r.cliente_nombre))

/-- Embedding of the nested `assign_segment`: the fixed (R, F, M) decision
table, first matching rule wins. -/
def assign_segment (r f m : Nat) : String :=
  if 4 ≤ r ∧ 4 ≤ f ∧ 4 ≤ m then ("🏆 VIP")
  else if 4 ≤ r ∧ 4 ≤ f then ("💎 Leal")
  else if 4 ≤ r ∧ 4 ≤ m then ("🌟 Potencial")
  else if r ≤ 2 ∧ 3 ≤ f ∧ 3 ≤ m then ("⚠️ En Riesgo")
  else if r ≤ 2 ∧ 3 ≤ m then ("💤 Dormidos")
  else if r ≤ 2 then ("👋 Perdidos")
  else if 4 ≤ r ∧ f ≤ 2 then ("🆕 Nuevos")
  else ("📊 Regular")

/-- One row of the RFM result table (`ultima_compra` kept as a day number). -/
structure RfmRow where
  cliente : String
  ultima_compra_dias : Int
  frecuencia : Nat
  valor_monetario : Rat
  recencia : Int
  R_score : Nat
  F_score : Nat
  M_score : Nat
  RFM_score : String
  RFM_total : Nat
  segmento : String
deriving DecidableEq, Repr

/-- `dataframe['fecha'].max()` as a day number. -/
def rfmToday (rows : List Row) : Int := listMaxI (rows.map (fun r => r.fecha.toDays))

/-- The `recencia` column, in group-key order. -/
def recenciasOf (rows : List Row) : List Rat :=
  (rfmNames rows).map (fun nm => ((rfmToday rows - custLastDays rows nm : Int) : Rat))

/-- The `frecuencia` column, in group-key order. -/
def frecuenciasOf (rows : List Row) : List Rat :=
  (rfmNames rows).map (fun nm => (((custFreq rows nm : Nat)) : Rat))

/-- The `valor_monetario` column, in group-key order. -/
def montosOf (rows : List Row) : List Rat :=
  (rfmNames rows).map (fun nm => custMoney rows nm)

/-- Column-wise assembly of the RFM result rows from the three score
columns. -/
def rfmAssemble (rows : List Row) (rS fS mS : List Nat) : List RfmRow :=
  (List.range (rfmNames rows).length).map (fun i =>
    { cliente := (rfmNames rows).getD i ("")
      ultima_compra_dias := custLastDays rows ((rfmNames rows).getD i (""))
      frecuencia := custFreq rows ((rfmNames rows).getD i (""))
      valor_monetario := custMoney rows ((rfmNames rows).getD i (""))
      recencia := rfmToday rows - custLastDays rows ((rfmNames rows).getD i (""))
      R_score := rS.getD i 0
      F_score := fS.getD i 0
      M_score := mS.getD i 0
      RFM_score := toString (rS.getD i 0) ++ toString (fS.getD i 0) ++ toString (mS.getD i 0)
      RFM_total := rS.getD i 0 + fS.getD i 0 + mS.getD i 0
      segmento := assign_segment (rS.getD i 0) (fS.getD i 0) (mS.getD i 0) })

/-- The scoring pipeline of `calculate_rfm_scores` applied to the rows. -/
def rfmCore (rows : List Row) : Except String (List RfmRow) := do
  let rScores ← qcut5 (recenciasOf rows) [5, 4, 3, 2, 1]
  let fScores ← qcut5 (rankFirst (frecuenciasOf rows)) [1, 2, 3, 4, 5]
  let mScores ← qcut5 (rankFirst (montosOf rows)) [1, 2, 3, 4, 5]
  pure (rfmAssemble rows rScores fScores mScores)

/-- Embedding of `app.calculate_rfm_scores`: per-customer recency, frequency
and monetary value; quintile scores via `pd.qcut` (recency labels inverted,
frequency and monetary ranked first to break ties); segment assignment. -/
def calculate_rfm_scores (df : DataFrame) : Except String (List RfmRow) := do
  let rows ← df.rowsOr ("fecha")
  rfmCore rows

/-- A throwaway default row, used only as the `getD` default when indexing
into an RFM result list at a position known to be in range. -/
def rfmDefault : RfmRow :=
  ⟨(""), 0, 0, 0, 0, 0, 0, 0, (""), 0, ("")⟩

/-! ### Decidable equality of `Except` results -/

instance {ε α : Type} [DecidableEq ε] [DecidableEq α] : DecidableEq (Except ε α) := fun a b =>
  match a, b with
  | .ok x, .ok y => decidable_of_iff (x = y) (by simp)
  | .error x, .error y => decidable_of_iff (x = y) (by simp)
  | .ok _, .error _ => isFalse (by simp)
  | .error _, .ok _ => isFalse (by simp)

/-! ### Concrete tables used by the witnesses and counterexamples -/

/-- Build a one-line row (quantity 1, normalization columns still empty). -/
def mkR (f c pr : String) (d : Date) (v : Rat) : Row :=
  ⟨f, c, pr, (""), (""), d, v, 1⟩

/-- Five customers; `ALFA SA` has the strictly highest revenue (100), the
strictly highest distinct-invoice count (3) and the strictly latest purchase
(2024-04-10), and the recency/rank quintile edges are all distinct. -/
def wRows : List Row :=
  [mkR ("F1") ("ALFA SA") ("VINIL") ⟨2024, 3, 1⟩ 40,
   mkR ("F2") ("ALFA SA") ("VINIL") ⟨2024, 3, 20⟩ 30,
   mkR ("F3") ("ALFA SA") ("VINIL") ⟨2024, 4, 10⟩ 30,
   mkR ("G1") ("BETA SA") ("VINIL") ⟨2024, 3, 31⟩ 10,
   mkR ("H1") ("CETA SA") ("VINIL") ⟨2024, 3, 21⟩ 20,
   mkR ("I1") ("DELTA SA") ("VINIL") ⟨2024, 3, 11⟩ 30,
   mkR ("J1") ("EPSILON SA") ("VINIL") ⟨2024, 3, 21⟩ 20]

/-- The RFM result on `wRows` (read back from the embedded computation). -/
def wRes : List RfmRow :=
  match calculate_rfm_scores (DataFrame.table wRows) with
  | .ok r => r
  | .error _ => []

/-- Three customers; `ALFA SA` is the strict top customer in all three RFM
dimensions, but `BETA SA` and `CETA SA` share the recency 50 days, so the
recency quintile edges `[0, 20, 40, 50, 50, 50]` collapse to four distinct
values and `pd.qcut(..., labels=[5,4,3,2,1], duplicates='drop')` raises. -/
def cRows : List Row :=
  [mkR ("F1") ("ALFA SA") ("VINIL") ⟨2024, 4, 10⟩ 100,
   mkR ("F2") ("ALFA SA") ("VINIL") ⟨2024, 3, 31⟩ 100,
   mkR ("G1") ("BETA SA") ("VINIL") ⟨2024, 2, 20⟩ 10,
   mkR ("H1") ("CETA SA") ("VINIL") ⟨2024, 2, 20⟩ 20]

/-- The synthetic C7 customer: 10 transactions of $800 (total $8,000), last
purchase 2024-03-27, i.e. 95 days before the as-of date 2024-06-30. -/
def i95 : List Row :=
  [mkR ("F1") ("SINTETICOS SA") ("VINIL") ⟨2024, 1, 10⟩ 800,
   mkR ("F2") ("SINTETICOS SA") ("VINIL") ⟨2024, 1, 10⟩ 800,
   mkR ("F3") ("SINTETICOS SA") ("VINIL") ⟨2024, 1, 10⟩ 800,
   mkR ("F4") ("SINTETICOS SA") ("VINIL") ⟨2024, 1, 10⟩ 800,
   mkR ("F5") ("SINTETICOS SA") ("VINIL") ⟨2024, 1, 10⟩ 800,
   mkR ("F6") ("SINTETICOS SA") ("VINIL") ⟨2024, 1, 10⟩ 800,
   mkR ("F7") ("SINTETICOS SA") ("VINIL") ⟨2024, 1, 10⟩ 800,
   mkR ("F8") ("SINTETICOS SA") ("VINIL") ⟨2024, 1, 10⟩ 800,
   mkR ("F9") ("SINTETICOS SA") ("VINIL") ⟨2024, 1, 10⟩ 800,
   mkR ("F10") ("SINTETICOS SA") ("VINIL") ⟨2024, 3, 27⟩ 800]

/-- Same customer with the last purchase moved to 2024-04-02: 89 days before
the as-of date, everything else unchanged. -/
def i89 : List Row :=
  (i95.take 9) ++ [mkR ("F10") ("SINTETICOS SA") ("VINIL") ⟨2024, 4, 2⟩ 800]

/-- The customer names in the priority list returned by
`get_inactive_customers_data` (empty when the call raises). -/
def inactClientNames (df : DataFrame) (today : Date) (thr : Nat) : List String :=
  match get_inactive_customers_data df today thr with
  | .ok o => o.clientes_prioritarios.map (fun c => c.cliente)
  | .error _ => []

/-- Rows used by the `get_kpis` witness: two distinct invoices, $60 total. -/
def kpiRows : List Row :=
  [mkR ("F1") ("ALFA SA") ("VINIL") ⟨2024, 1, 5⟩ 10,
   mkR ("F1") ("ALFA SA") ("VINIL") ⟨2024, 1, 5⟩ 20,
   mkR ("F2") ("BETA SA") ("VINIL") ⟨2024, 1, 9⟩ 30]

/-- The fixed upload path of the API (`data/source.csv`). -/
def dataPath : String := "data/source.csv"

/-- The single row of the initially loaded file in the staleness scenario. -/
def rowA : Row := mkR ("F1") ("ALFA SA") ("ARRENDAMIENTO") ⟨2024, 1, 5⟩ 100

/-- Initial state: the data file holds `[rowA]`, the cache is empty. -/
def s0 : LoaderState := ⟨[(dataPath, some [rowA])], []⟩

/-- After the first `load_data` call (which fills the cache). -/
def s1 : LoaderState := (load_data s0 dataPath).2

/-- After uploading a new, empty file over the same path through the API
endpoint (which does not clear the cache). -/
def s2 : LoaderState := upload_data s1 dataPath []

/-- A concrete mixed-case arrendamiento row for the C3 witness. -/
def c3Row : Row := mkR ("F1") ("ALFA SA") ("Renta arrendamiento bodega 7") ⟨2024, 1, 5⟩ 10

/-- A concrete arrendamiento row whose raw label differs from the collapsed
literal, for the C8 counterexample. -/
def c8Row : Row := mkR ("F1") ("ALFA SA") ("Arrendamiento Local 5") ⟨2024, 1, 5⟩ 10

/-- A concrete non-arrendamiento row for the C8 witness. -/
def c8wRow : Row := mkR ("F1") ("ALFA SA") ("Vinil Automotriz 99") ⟨2024, 1, 5⟩ 10

/-- Spec-side formulation: the current month's revenue of one calendar year,
summed directly over the raw rows. -/
def yearMonthRevenue (rows : List Row) (m y : Nat) : Rat :=
  ((rows.filter (fun r => decide (r.fecha.month = m ∧ r.fecha.year = y))).map
    (fun r => r.venta_neta)).sum

/-- Spec-side formulation: the years strictly before the current year that
have data in the current calendar month. -/
def histYears (rows : List Row) (today : Date) : List Nat :=
  (((dfMonth rows today.month).map (fun r => r.fecha.year)).dedup).filter
    (fun y => decide (y < today.year))

/-- Spec-side formulation: the mean of the current month's revenue over the
years strictly before the current year (0 when there are none). -/
def histAverage (rows : List Row) (today : Date) : Rat :=
  if histYears rows today = [] then 0
  else ((histYears rows today).map (fun y => yearMonthRevenue rows today.month y)).sum
    / (((histYears rows today).length : Nat) : Rat)

/-- Spec-side formulation: the current partial month total. -/
def currentMonthRevenue (rows : List Row) (today : Date) : Rat :=
  yearMonthRevenue rows today.month today.year

/-- Four transactions over three Aprils, for the C6 witness. -/
def rows6 : List Row :=
  [mkR ("A1") ("X SA") ("P") ⟨2022, 4, 1⟩ 50,
   mkR ("A2") ("X SA") ("P") ⟨2023, 4, 5⟩ 100,
   mkR ("A3") ("X SA") ("P") ⟨2023, 4, 20⟩ 50,
   mkR ("A4") ("X SA") ("P") ⟨2024, 4, 2⟩ 30]

/-! ## Claim C1 -/

/-- Claim C1 (code behaviour at the failing input): on the empty, column-less
frame that `load_data` returns for a failed or empty-file load, every
aggregation function raises a `KeyError` on its first column access instead of
returning a zero-valued result: `get_kpis` on `venta_neta`,
`get_monthly_comparison_data` and (through it) `generate_executive_summary`
on `fecha`, `get_inactive_customers_data` on the `cliente_nombre` group key,
and `get_stale_products_data` on the `producto` group key. -/
theorem c1_aggregations_error_on_empty_frame :
    get_kpis DataFrame.empty = Except.error ("KeyError: venta_neta") ∧
    get_monthly_comparison_data DataFrame.empty ⟨2024, 1, 15⟩ = Except.error ("KeyError: fecha") ∧
    get_inactive_customers_data DataFrame.empty ⟨2024, 1, 15⟩ 90
      = Except.error ("KeyError: cliente_nombre") ∧
    get_stale_products_data DataFrame.empty ⟨2024, 1, 15⟩ 60
      = Except.error ("KeyError: producto") ∧
    generate_executive_summary DataFrame.empty ⟨2024, 1, 15⟩ = Except.error ("KeyError: fecha") :=
  ⟨rfl, rfl, rfl, rfl, rfl⟩

/-! ## Claim C2 -/

theorem alistFind_alistPut {α : Type} (k : String) (v : α) (l : List (String × α)) :
    alistFind k (alistPut k v l) = some v := by
  induction l with
  | nil => simp [alistPut, alistFind]
  | cons h t ih =>
    obtain ⟨k1, v1⟩ := h
    by_cases hk : k1 = k
    · subst hk
      simp [alistPut, alistFind]
    · simp [alistPut, alistFind, hk, ih]

/-- Claim C2 (counterexample): the cache of `load_data` is keyed by the path
argument alone, so after `load(p); upload(p, new content); load(p)` — the API
upload endpoint performs no cache clear — the second load still returns the
table computed from the OLD content (here the normalized single-row table),
not the table computed from the newly uploaded empty content. -/
theorem c2_stale_cache_counterexample :
    (load_data s2 dataPath).1
      = DataFrame.table
          [⟨("F1"), ("ALFA SA"), ("ARRENDAMIENTO"), ("ARRENDAMIENTO"), ("ARRENDAMIENTO"),
            ⟨2024, 1, 5⟩, 100, 1⟩] ∧
    load_pure ((alistFind dataPath s2.fs).getD none) = DataFrame.table [] ∧
    (load_data s2 dataPath).1 ≠ load_pure ((alistFind dataPath s2.fs).getD none) := by
  decide

/-- Claim C2 (amended): the cache is keyed by the input path only; an upload
by itself does not invalidate it.  The dashboard's upload flow calls the
explicit cache clear (`st.cache_data.clear()`) after overwriting the file,
and after such a clear the next load always recomputes the table from the
newly uploaded content. -/
theorem c2_explicit_clear_reloads (s : LoaderState) (p : String) (content : List Row) :
    (load_data (clear_cache (upload_data s p content)) p).1
      = DataFrame.table (normalize_products CANONICAL_PRODUCTS content) := by
  simp [load_data, clear_cache, upload_data, alistFind, alistFind_alistPut, load_pure]

/-! ## Claim C7 -/

/-- Claim C7: the synthetic customer with 10 transactions, $8,000 revenue and
a last purchase 95 days before the as-of date appears in the inactive-customer
list (thresholds: relevance by transaction count or revenue, inactivity
strictly beyond 90 days); with the gap reduced to 89 days and everything else
unchanged, the customer does not appear. -/
theorem c7_inactive_customer_scenario :
    ("SINTETICOS SA") ∈ inactClientNames (DataFrame.table i95) ⟨2024, 6, 30⟩ 90 ∧
    ("SINTETICOS SA") ∉ inactClientNames (DataFrame.table i89) ⟨2024, 6, 30⟩ 90 := by
  decide

/-! ## Claims C3 and C8: the normalization pass -/

theorem getD_map_of_lt {α β : Type} (f : α → β) (l : List α) (i : Nat) (h : i < l.length)
    (d1 : α) (d2 : β) : (l.map f).getD i d2 = f (l.getD i d1) := by
  rw [List.getD_eq_getElem _ _ (by simpa using h), List.getD_eq_getElem _ _ h, List.getElem_map]

theorem lookupA_graph (g : String → String) (l : List String) (k : String) :
    lookupA k (l.map (fun n => (n, g n))) = if k ∈ l then some (g k) else none := by
  induction l with
  | nil => simp [lookupA]
  | cons a t ih =>
    simp only [List.map_cons, lookupA]
    by_cases ha : a = k
    · subst ha
      simp [List.mem_cons]
    · rw [if_neg ha, ih]
      by_cases hm : k ∈ t
      · simp [hm, List.mem_cons]
      · have : ¬ k ∈ a :: t := by
          simp only [List.mem_cons, not_or]
          exact ⟨fun h => ha h.symm, hm⟩
        simp [hm, this]

theorem mapProduct_arr (catalog : List String) : mapProduct catalog arrStr = arrStr := by
  simp [mapProduct]

/-- The `i`-th output row of `normalize_products`, written out: the collapsed
row with the three product columns rewritten through the mapping. -/
theorem normalize_products_getD (catalog : List String) (rows : List Row) (i : Nat)
    (hi : i < rows.length) :
    (normalize_products catalog rows).getD i dRow
      = { collapseArr (rows.getD i dRow) with
          producto_normalizado :=
            (lookupA (collapseArr (rows.getD i dRow)).producto
              (((rows.map collapseArr).map (fun r => r.producto)).dedup.map
                (fun n => (n, mapProduct catalog n)))).getD
              (collapseArr (rows.getD i dRow)).producto
          producto_original := (collapseArr (rows.getD i dRow)).producto
          producto :=
            (lookupA (collapseArr (rows.getD i dRow)).producto
              (((rows.map collapseArr).map (fun r => r.producto)).dedup.map
                (fun n => (n, mapProduct catalog n)))).getD
              (collapseArr (rows.getD i dRow)).producto } := by
  unfold normalize_products
  rw [getD_map_of_lt _ _ i (by simpa using hi) dRow dRow,
    getD_map_of_lt collapseArr rows i hi dRow dRow]

/-- The collapsed producto value of row `i` is a member of the distinct-label
list the mapping is built from. -/
theorem collapsed_mem_uniq (rows : List Row) (i : Nat) (hi : i < rows.length) :
    (collapseArr (rows.getD i dRow)).producto
      ∈ ((rows.map collapseArr).map (fun r => r.producto)).dedup := by
  rw [List.mem_dedup]
  have h1 : ((rows.map collapseArr).map (fun r => r.producto)).getD i ("")
      = (collapseArr (rows.getD i dRow)).producto := by
    rw [getD_map_of_lt (fun r => r.producto) (rows.map collapseArr) i (by simpa using hi) dRow,
      getD_map_of_lt collapseArr rows i hi dRow]
  rw [← h1]
  rw [List.getD_eq_getElem _ _ (by simpa using hi)]
  exact List.getElem_mem _

/-- Claim C3: every raw product label containing the substring
`ARRENDAMIENTO` in any letter case, anywhere, is mapped by the normalization
pass to the literal canonical value `ARRENDAMIENTO`, in both the working
`producto` column and the `producto_normalizado` column, for an arbitrary
catalog (the cleaning/exact/fuzzy steps are skipped). -/
theorem c3_arrendamiento_collapse (catalog : List String) (rows : List Row) (i : Nat)
    (hi : i < rows.length)
    (hc : containsCI (rows.getD i dRow).producto arrStr = true) :
    ((normalize_products catalog rows).getD i dRow).producto = ("ARRENDAMIENTO") ∧
    ((normalize_products catalog rows).getD i dRow).producto_normalizado = ("ARRENDAMIENTO") := by
  have hcol : collapseArr (rows.getD i dRow) = { rows.getD i dRow with producto := arrStr } := by
    simp only [collapseArr, hc, if_true]
  have hmem := collapsed_mem_uniq rows i hi
  rw [hcol] at hmem
  rw [normalize_products_getD catalog rows i hi, hcol]
  simp only []
  rw [lookupA_graph (mapProduct catalog), if_pos hmem, mapProduct_arr, Option.getD_some]
  exact ⟨rfl, rfl⟩

/-- Witness for C3 at a concrete mixed-case label and the modelled catalog. -/
theorem c3_witness :
    containsCI c3Row.producto arrStr = true ∧
    ((normalize_products CANONICAL_PRODUCTS [c3Row]).getD 0 dRow).producto = ("ARRENDAMIENTO") :=
  ⟨by decide, (c3_arrendamiento_collapse CANONICAL_PRODUCTS [c3Row] 0 (by decide) (by decide)).1⟩

/-- Claim C8 (counterexample): `producto_original` does not always hold the
raw label exactly as it appeared in the input file — the arrendamiento
collapse rewrites `producto` in place before `producto_original` is captured,
so the row with raw label `Arrendamiento Local 5` records
`producto_original = ARRENDAMIENTO`. -/
theorem c8_producto_original_counterexample :
    ((normalize_products CANONICAL_PRODUCTS [c8Row]).getD 0 dRow).producto_original
      = ("ARRENDAMIENTO") ∧
    ((normalize_products CANONICAL_PRODUCTS [c8Row]).getD 0 dRow).producto_original
      ≠ c8Row.producto := by
  decide

/-- Claim C8 (amended): normalization preserves the row count; for every row
`producto` equals `producto_normalizado` after the pass; and for every row
whose raw label does not contain `ARRENDAMIENTO` (case-insensitively),
`producto_original` preserves the raw input label unchanged.  (For
arrendamiento rows the label has already been collapsed when
`producto_original` is captured.) -/
theorem c8_normalization_columns (catalog : List String) (rows : List Row) (i : Nat)
    (hi : i < rows.length) :
    (normalize_products catalog rows).length = rows.length ∧
    ((normalize_products catalog rows).getD i dRow).producto
      = ((normalize_products catalog rows).getD i dRow).producto_normalizado ∧
    (containsCI (rows.getD i dRow).producto arrStr = false →
      ((normalize_products catalog rows).getD i dRow).producto_original
        = (rows.getD i dRow).producto) := by
  refine ⟨by simp [normalize_products], ?_, ?_⟩
  · rw [normalize_products_getD catalog rows i hi]
  · intro hn
    have hcol : collapseArr (rows.getD i dRow) = rows.getD i dRow := by
      simp only [collapseArr, hn, Bool.false_eq_true, if_false]
    rw [normalize_products_getD catalog rows i hi, hcol]

/-- Witness for C8 on a concrete non-arrendamiento row. -/
theorem c8_witness :
    containsCI c8wRow.producto arrStr = false ∧
    ((normalize_products CANONICAL_PRODUCTS [c8wRow]).getD 0 dRow).producto_original
      = c8wRow.producto ∧
    ((normalize_products CANONICAL_PRODUCTS [c8wRow]).getD 0 dRow).producto
      = ((normalize_products CANONICAL_PRODUCTS [c8wRow]).getD 0 dRow).producto_normalizado := by
  have h := c8_normalization_columns CANONICAL_PRODUCTS ([c8wRow]) 0 (by decide)
  exact ⟨by decide, h.2.2 (by decide), h.2.1⟩

/-! ## Claim C4: the fallback branch of the matcher -/

theorem bestMatch_lt (q : String) : ∀ (ks : List String) (acc : Option (String × Nat)),
    (∀ k ∈ ks, fuzzRatio q k < 85) →
    (∀ bk bs, acc = some (bk, bs) → bs < 85) →
    ∀ bk bs, bestMatch q ks acc = some (bk, bs) → bs < 85 := by
  intro ks
  induction ks with
  | nil =>
    intro acc hks hacc bk bs h
    exact hacc bk bs h
  | cons k t ih =>
    intro acc hks hacc bk bs h
    have hk := hks k (List.mem_cons_self k t)
    have hstep : ∃ acc2, bestMatch q (k :: t) acc = bestMatch q t acc2 ∧
        (∀ bk1 bs1, acc2 = some (bk1, bs1) → bs1 < 85) := by
      cases acc with
      | none =>
        refine ⟨some (k, fuzzRatio q k), rfl, ?_⟩
        intro bk1 bs1 hh
        cases hh
        exact hk
      | some p =>
        obtain ⟨bk0, bs0⟩ := p
        by_cases hlt : bs0 < fuzzRatio q k
        · refine ⟨some (k, fuzzRatio q k), ?_, ?_⟩
          · simp only [bestMatch, if_pos hlt]
          · intro bk1 bs1 hh
            cases hh
            exact hk
        · refine ⟨some (bk0, bs0), ?_, ?_⟩
          · simp only [bestMatch, if_neg hlt]
          · intro bk1 bs1 hh
            cases hh
            exact hacc bk0 bs0 rfl
    obtain ⟨acc2, heq, hprop⟩ := hstep
    rw [heq] at h
    exact ih acc2 (fun x hx => hks x (List.mem_cons_of_mem k hx)) hprop bk bs h

theorem extractOne_none (q : String) (ks : List String)
    (hks : ∀ k ∈ ks, fuzzRatio q k < 85) : extractOne q ks 85 = none := by
  unfold extractOne
  cases hbm : bestMatch q ks none with
  | none => rfl
  | some p =>
    obtain ⟨k, s⟩ := p
    have hs : s < 85 := bestMatch_lt q ks none hks (by intro bk bs h; cases h) k s hbm
    have hns : ¬ (85 ≤ s) := by omega
    simp [hns]

theorem alnum_not_space (c : Char) (h : isAlnumChar c = true) : isPySpace c = false := by
  unfold isAlnumChar isLowerAlpha isUpperAlpha isDigitChar at h
  unfold isPySpace
  simp only [Bool.or_eq_true, decide_eq_true_eq] at h
  simp only [decide_eq_false_iff_not, not_or]
  omega

theorem titleGo_length (b : Bool) (l : List Char) : (titleGo b l).length = l.length := by
  induction l generalizing b with
  | nil => rfl
  | cons c cs ih => simp [titleGo, ih]

theorem splitWsF_ne_nil (fuel : Nat) :
    ∀ (l : List Char), l.length ≤ fuel → ∀ c ∈ l, isPySpace c = false → splitWsF fuel l ≠ [] := by
  induction fuel with
  | zero =>
    intro l hl c hc _
    have : l = [] := List.length_eq_zero.mp (Nat.le_zero.mp hl)
    subst this
    cases hc
  | succ n ih =>
    intro l hl c hc hs
    cases l with
    | nil => cases hc
    | cons a t =>
      simp only [splitWsF]
      by_cases ha : isPySpace a
      · rw [if_pos ha]
        rcases List.mem_cons.mp hc with h1 | h2
        · subst h1
          rw [hs] at ha
          cases ha
        · exact ih t (by simpa using Nat.le_of_succ_le_succ (by simpa using hl)) c h2 hs
      · rw [if_neg ha]
        simp

theorem splitWs_ne_nil (l : List Char) (c : Char) (hc : c ∈ l) (hs : isPySpace c = false) :
    splitWs l ≠ [] :=
  splitWsF_ne_nil l.length l (Nat.le_refl _) c hc hs

theorem splitWsF_tokens_ne_nil (fuel : Nat) :
    ∀ (l : List Char), ∀ t ∈ splitWsF fuel l, t ≠ [] := by
  induction fuel with
  | zero =>
    intro l t ht
    cases l with
    | nil => cases ht
    | cons a t2 => cases ht
  | succ n ih =>
    intro l t ht
    cases l with
    | nil => cases ht
    | cons a t2 =>
      simp only [splitWsF] at ht
      by_cases ha : isPySpace a
      · rw [if_pos ha] at ht
        exact ih t2 t ht
      · rw [if_neg ha] at ht
        rcases List.mem_cons.mp ht with h1 | h2
        · subst h1
          simp
        · exact ih _ t h2

theorem clean_display_str_ne_empty (raw : String) (h : raw.toList.any isAlnumChar = true) :
    clean_display_str raw ≠ ("") := by
  obtain ⟨c, hc, hca⟩ := List.any_eq_true.mp h
  have hkeep : keepDisplayChar c = c := by
    unfold keepDisplayChar
    rw [if_pos]
    rw [Bool.or_eq_true]
    exact Or.inl hca
  have hmem : c ∈ raw.toList.map keepDisplayChar := by
    rw [← hkeep]
    exact List.mem_map_of_mem _ hc
  have hns : isPySpace c = false := alnum_not_space c hca
  have hsplit := splitWs_ne_nil _ c hmem hns
  unfold clean_display_str
  cases hsp : splitWs (raw.toList.map keepDisplayChar) with
  | nil => exact absurd hsp hsplit
  | cons p ps =>
    have hp : p ≠ [] := splitWsF_tokens_ne_nil _ _ p (by rw [← splitWs, hsp]; exact List.mem_cons_self p ps)
    intro hcontra
    have hdat : titleGo false (joinSp (splitWs (raw.toList.map keepDisplayChar))) = [] :=
      congrArg String.data hcontra
    have hlen := congrArg List.length hdat
    rw [titleGo_length, hsp] at hlen
    simp only [List.length_nil] at hlen
    cases ps with
    | nil =>
      simp only [joinSp] at hlen
      exact hp (List.length_eq_zero.mp hlen)
    | cons p2 ps2 =>
      simp only [joinSp, List.length_append, List.length_cons] at hlen
      omega

/-- Claim C4 (counterexample): the all-symbol label `###` is non-empty, its
cleaned form is not a catalog key and scores below 85 against every catalog
key, yet the fallback result `display_clean('###')` is the empty string; and
a label containing `ARRENDAMIENTO` never reaches the fallback at all — it
maps to the literal instead of its cleaned display form. -/
theorem c4_fallback_counterexample :
    ("###") ≠ ("") ∧
    lookupA (clean_str ("###")) (canonicalMap CANONICAL_PRODUCTS) = none ∧
    (∀ k ∈ canonicalKeys CANONICAL_PRODUCTS, fuzzRatio (clean_str ("###")) k < 85) ∧
    matchLabel CANONICAL_PRODUCTS ("###") = ("") ∧
    matchLabel CANONICAL_PRODUCTS ("zzz ARRENDAMIENTO qqq") = ("ARRENDAMIENTO") ∧
    matchLabel CANONICAL_PRODUCTS ("zzz ARRENDAMIENTO qqq")
      ≠ clean_display_str ("zzz ARRENDAMIENTO qqq") := by
  decide

/-- Claim C4 (amended): for every raw label that does not contain
`ARRENDAMIENTO` (case-insensitively), whose cleaned form is not an exact
catalog key, and which scores below 85 against every catalog key, the matcher
returns `display_clean(raw)`; this fallback is non-empty whenever the raw
label contains at least one ASCII letter or digit (for labels with no
alphanumeric character, such as `###`, it is empty). -/
theorem c4_fallback_display_clean (catalog : List String) (raw : String)
    (hA : containsCI raw arrStr = false)
    (hE : lookupA (clean_str raw) (canonicalMap catalog) = none)
    (hF : ∀ k ∈ canonicalKeys catalog, fuzzRatio (clean_str raw) k < 85) :
    matchLabel catalog raw = clean_display_str raw ∧
    (raw.toList.any isAlnumChar = true → clean_display_str raw ≠ ("")) := by
  constructor
  · unfold matchLabel
    rw [hA]
    simp only [Bool.false_eq_true, if_false]
    unfold mapProduct
    have hne : raw ≠ arrStr := by
      intro hEq
      rw [hEq] at hA
      have : containsCI arrStr arrStr = true := by decide
      rw [this] at hA
      cases hA
    rw [if_neg hne, hE]
    simp only [extractOne_none _ _ hF]
  · exact clean_display_str_ne_empty raw

/-- Witness for C4 at a concrete unmatched label and the modelled catalog. -/
theorem c4_witness :
    containsCI ("Producto Misterioso XYZ") arrStr = false ∧
    lookupA (clean_str ("Producto Misterioso XYZ")) (canonicalMap CANONICAL_PRODUCTS) = none ∧
    (∀ k ∈ canonicalKeys CANONICAL_PRODUCTS,
      fuzzRatio (clean_str ("Producto Misterioso XYZ")) k < 85) ∧
    matchLabel CANONICAL_PRODUCTS ("Producto Misterioso XYZ")
      = clean_display_str ("Producto Misterioso XYZ") ∧
    clean_display_str ("Producto Misterioso XYZ") ≠ ("") := by
  refine ⟨by decide, by decide, by decide, ?_, ?_⟩
  · exact (c4_fallback_display_clean CANONICAL_PRODUCTS ("Producto Misterioso XYZ")
      (by decide) (by decide) (by decide)).1
  · exact (c4_fallback_display_clean CANONICAL_PRODUCTS ("Producto Misterioso XYZ")
      (by decide) (by decide) (by decide)).2 (by decide)

/-! ## Claim C9: idempotence of the string cleaner -/

theorem length_dropWhile_le {α : Type} (p : α → Bool) (l : List α) :
    (l.dropWhile p).length ≤ l.length := by
  induction l with
  | nil => simp
  | cons a t ih =>
    rw [List.dropWhile_cons]
    by_cases hp : p a
    · rw [if_pos hp]
      simp only [List.length_cons]
      omega
    · rw [if_neg hp]

theorem takeWhile_all {α : Type} (p : α → Bool) (l : List α) (h : ∀ a ∈ l, p a = true) :
    l.takeWhile p = l := by
  induction l with
  | nil => rfl
  | cons a t ih =>
    rw [List.takeWhile_cons, if_pos (h a (List.mem_cons_self a t))]
    rw [ih (fun b hb => h b (List.mem_cons_of_mem a hb))]

theorem dropWhile_all {α : Type} (p : α → Bool) (l : List α) (h : ∀ a ∈ l, p a = true) :
    l.dropWhile p = [] := by
  induction l with
  | nil => rfl
  | cons a t ih =>
    rw [List.dropWhile_cons, if_pos (h a (List.mem_cons_self a t))]
    exact ih (fun b hb => h b (List.mem_cons_of_mem a hb))

theorem takeWhile_append_stop (t r : List Char) (hc : ∀ c ∈ t, isPySpace c = false) :
    (t ++ ' ' :: r).takeWhile (fun d => !isPySpace d) = t := by
  induction t with
  | nil =>
    rw [List.nil_append, List.takeWhile_cons, if_neg (by decide)]
  | cons a t2 ih =>
    simp only [List.cons_append, List.takeWhile_cons]
    rw [if_pos (by rw [hc a (List.mem_cons_self a t2)]; rfl)]
    rw [ih (fun c hcm => hc c (List.mem_cons_of_mem a hcm))]

theorem dropWhile_append_stop (t r : List Char) (hc : ∀ c ∈ t, isPySpace c = false) :
    (t ++ ' ' :: r).dropWhile (fun d => !isPySpace d) = ' ' :: r := by
  induction t with
  | nil =>
    rw [List.nil_append, List.dropWhile_cons, if_neg (by decide)]
  | cons a t2 ih =>
    simp only [List.cons_append, List.dropWhile_cons]
    rw [if_pos (by rw [hc a (List.mem_cons_self a t2)]; rfl)]
    exact ih (fun c hcm => hc c (List.mem_cons_of_mem a hcm))

theorem splitWsF_fuel (f1 : Nat) : ∀ (f2 : Nat) (l : List Char),
    l.length ≤ f1 → l.length ≤ f2 → splitWsF f1 l = splitWsF f2 l := by
  induction f1 with
  | zero =>
    intro f2 l h1 _
    have : l = [] := List.length_eq_zero.mp (Nat.le_zero.mp h1)
    subst this
    cases f2 <;> rfl
  | succ n ih =>
    intro f2 l h1 h2
    cases l with
    | nil => cases f2 <;> rfl
    | cons a t =>
      cases f2 with
      | zero => simp at h2
      | succ m =>
        simp only [splitWsF]
        by_cases ha : isPySpace a
        · rw [if_pos ha, if_pos ha]
          exact ih m t (by simpa using Nat.le_of_succ_le_succ (by simpa using h1))
            (by simpa using Nat.le_of_succ_le_succ (by simpa using h2))
        · rw [if_neg ha, if_neg ha]
          have hd := length_dropWhile_le (fun d => !isPySpace d) t
          have hlt : t.length ≤ n := by simpa using Nat.le_of_succ_le_succ (by simpa using h1)
          have hlm : t.length ≤ m := by simpa using Nat.le_of_succ_le_succ (by simpa using h2)
          rw [ih m (t.dropWhile (fun d => !isPySpace d)) (by omega) (by omega)]

theorem splitWsF_to_splitWs (fuel : Nat) (l : List Char) (h : l.length ≤ fuel) :
    splitWsF fuel l = splitWs l :=
  splitWsF_fuel fuel l.length l h (Nat.le_refl _)

theorem splitWs_single (t : List Char) (ht : t ≠ []) (hc : ∀ c ∈ t, isPySpace c = false) :
    splitWs t = [t] := by
  cases t with
  | nil => exact absurd rfl ht
  | cons c cs =>
    show splitWsF (c :: cs).length (c :: cs) = _
    simp only [List.length_cons, splitWsF]
    rw [if_neg (by rw [hc c (List.mem_cons_self c cs)]; exact Bool.false_ne_true)]
    rw [takeWhile_all _ _ (fun d hd => by rw [hc d (List.mem_cons_of_mem c hd)]; rfl)]
    rw [dropWhile_all _ _ (fun d hd => by rw [hc d (List.mem_cons_of_mem c hd)]; rfl)]
    cases cs.length <;> rfl

theorem splitWsF_append_space (t r : List Char) (fuel : Nat) (ht : t ≠ [])
    (hc : ∀ c ∈ t, isPySpace c = false) (hf : (t ++ ' ' :: r).length ≤ fuel) :
    splitWsF fuel (t ++ ' ' :: r) = t :: splitWs r := by
  cases t with
  | nil => exact absurd rfl ht
  | cons c cs =>
    cases fuel with
    | zero => simp at hf
    | succ n =>
      simp only [List.cons_append, splitWsF, List.append_eq]
      rw [if_neg (by rw [hc c (List.mem_cons_self c cs)]; exact Bool.false_ne_true)]
      have hcs : ∀ d ∈ cs, isPySpace d = false := fun d hd => hc d (List.mem_cons_of_mem c hd)
      rw [takeWhile_append_stop cs r hcs, dropWhile_append_stop cs r hcs]
      have hlen : cs.length + r.length + 1 ≤ n := by
        simp only [List.length_append, List.length_cons] at hf
        omega
      cases n with
      | zero => omega
      | succ m =>
        simp only [splitWsF]
        rw [if_pos (by decide)]
        rw [splitWsF_to_splitWs m r (by omega)]

theorem splitWs_joinSp (ts : List (List Char))
    (h1 : ∀ t ∈ ts, t ≠ []) (h2 : ∀ t ∈ ts, ∀ c ∈ t, isPySpace c = false) :
    splitWs (joinSp ts) = ts := by
  induction ts with
  | nil => rfl
  | cons t ts2 ih =>
    cases ts2 with
    | nil => exact splitWs_single t (h1 t (List.mem_cons_self t [])) (h2 t (List.mem_cons_self t []))
    | cons t2 ts3 =>
      show splitWs (t ++ ' ' :: joinSp (t2 :: ts3)) = t :: t2 :: ts3
      unfold splitWs
      rw [splitWsF_append_space t _ _ (h1 t (List.mem_cons_self t _)) (h2 t (List.mem_cons_self t _))
        (Nat.le_refl _)]
      rw [ih (fun u hu => h1 u (List.mem_cons_of_mem t hu))
        (fun u hu => h2 u (List.mem_cons_of_mem t hu))]

theorem mem_takeWhile_pred {α : Type} (p : α → Bool) :
    ∀ (l : List α) (a : α), a ∈ l.takeWhile p → p a = true := by
  intro l
  induction l with
  | nil =>
    intro a ha
    cases ha
  | cons b t ih =>
    intro a ha
    rw [List.takeWhile_cons] at ha
    by_cases hb : p b
    · rw [if_pos hb] at ha
      rcases List.mem_cons.mp ha with h1 | h2
      · rw [h1]
        exact hb
      · exact ih a h2
    · rw [if_neg hb] at ha
      cases ha

theorem splitWsF_token_chars (fuel : Nat) :
    ∀ l t, t ∈ splitWsF fuel l → ∀ c ∈ t, c ∈ l ∧ isPySpace c = false := by
  induction fuel with
  | zero =>
    intro l t ht
    cases l with
    | nil => cases ht
    | cons a t2 => cases ht
  | succ n ih =>
    intro l t ht c hc
    cases l with
    | nil => cases ht
    | cons a t2 =>
      simp only [splitWsF] at ht
      by_cases ha : isPySpace a
      · rw [if_pos ha] at ht
        obtain ⟨hm, hs⟩ := ih t2 t ht c hc
        exact ⟨List.mem_cons_of_mem a hm, hs⟩
      · rw [if_neg ha] at ht
        rcases List.mem_cons.mp ht with h1 | h2
        · subst h1
          rcases List.mem_cons.mp hc with hca | hcb
          · subst hca
            exact ⟨List.mem_cons_self c t2, by simpa using ha⟩
          · have hsub := @List.takeWhile_sublist Char t2 (fun d => !isPySpace d)
            have hmem : c ∈ t2 := hsub.subset hcb
            have hpred : (!isPySpace c) = true := mem_takeWhile_pred _ t2 c hcb
            refine ⟨List.mem_cons_of_mem a hmem, ?_⟩
            simpa using hpred
        · obtain ⟨hm, hs⟩ := ih _ t h2 c hc
          have hsub := @List.dropWhile_sublist Char t2 (fun d => !isPySpace d)
          exact ⟨List.mem_cons_of_mem a (hsub.subset hm), hs⟩

theorem joinSp_chars (ts : List (List Char)) :
    ∀ c ∈ joinSp ts, c = ' ' ∨ ∃ t ∈ ts, c ∈ t := by
  induction ts with
  | nil =>
    intro c hc
    cases hc
  | cons t ts2 ih =>
    cases ts2 with
    | nil =>
      intro c hc
      exact Or.inr ⟨t, List.mem_cons_self t [], hc⟩
    | cons t2 ts3 =>
      intro c hc
      rcases List.mem_append.mp hc with h1 | h2
      · exact Or.inr ⟨t, List.mem_cons_self t _, h1⟩
      · rcases List.mem_cons.mp h2 with h3 | h4
        · exact Or.inl h3
        · rcases ih c h4 with h5 | ⟨u, hu, hcu⟩
          · exact Or.inl h5
          · exact Or.inr ⟨u, List.mem_cons_of_mem t hu, hcu⟩

theorem map_fix {f : Char → Char} (l : List Char) (h : ∀ c ∈ l, f c = c) : l.map f = l := by
  induction l with
  | nil => rfl
  | cons a t ih =>
    rw [List.map_cons, h a (List.mem_cons_self a t), ih (fun c hc => h c (List.mem_cons_of_mem a hc))]

theorem filter_self_idem {α : Type} (p : α → Bool) (l : List α) :
    (l.filter p).filter p = l.filter p := by
  induction l with
  | nil => rfl
  | cons a t ih =>
    by_cases hp : p a
    · simp [List.filter_cons, hp, ih]
    · simp [List.filter_cons, hp, ih]

theorem keepCleanChar_class (d : Char) :
    (isLowerAlpha (keepCleanChar d) || isDigitChar (keepCleanChar d)
      || isPySpace (keepCleanChar d)) = true := by
  unfold keepCleanChar
  by_cases hd : (isLowerAlpha d || isDigitChar d || isPySpace d) = true
  · rw [if_pos hd]
    exact hd
  · rw [if_neg hd]
    decide

theorem pyLowerChar_fix (c : Char) (h : (isLowerAlpha c || isDigitChar c) = true ∨ c = ' ') :
    pyLowerChar c = c := by
  unfold pyLowerChar
  rcases h with h1 | h2
  · simp only [isLowerAlpha, isDigitChar, Bool.or_eq_true, decide_eq_true_eq] at h1
    rw [if_neg (by omega)]
  · subst h2
    decide

theorem keepCleanChar_fix (c : Char) (h : (isLowerAlpha c || isDigitChar c) = true ∨ c = ' ') :
    keepCleanChar c = c := by
  unfold keepCleanChar
  rcases h with h1 | h2
  · rw [if_pos]
    simp only [Bool.or_eq_true] at h1 ⊢
    tauto
  · subst h2
    decide

theorem removeOccF_no_occ (pat : List Char) (fuel : Nat) :
    ∀ l, containsOcc pat l = false → removeOccF pat fuel l = l := by
  induction fuel with
  | zero =>
    intro l _
    cases l <;> rfl
  | succ n ih =>
    intro l h
    cases l with
    | nil => rfl
    | cons c cs =>
      simp only [containsOcc, Bool.or_eq_false_iff] at h
      simp only [removeOccF, h.1, Bool.false_and, Bool.false_eq_true, if_false]
      rw [ih cs h.2]

theorem removeOcc_no_occ (pat l : List Char) (h : containsOcc pat l = false) :
    removeOcc pat l = l :=
  removeOccF_no_occ pat l.length l h

theorem noiseFold_no_occ (ws : List String) (l : List Char)
    (h : ∀ w ∈ ws, containsOcc w.toList l = false) :
    ws.foldl (fun acc w => removeOcc w.toList acc) l = l := by
  induction ws with
  | nil => rfl
  | cons w t ih =>
    simp only [List.foldl_cons]
    rw [removeOcc_no_occ _ _ (h w (List.mem_cons_self w t))]
    exact ih (fun w2 hw2 => h w2 (List.mem_cons_of_mem w hw2))

theorem toList_mk (l : List Char) : (String.mk l).toList = l := rfl

theorem clean_str_toList (x : String) : (clean_str x).toList = joinSp (cleanTokens x) :=
  toList_mk (joinSp (cleanTokens x))

theorem cleanTokens_ne_nil (x : String) : ∀ t ∈ cleanTokens x, t ≠ [] := by
  intro t ht
  exact splitWsF_tokens_ne_nil _ _ t (List.mem_of_mem_filter ht)

theorem cleanTokens_chars (x : String) :
    ∀ t ∈ cleanTokens x, ∀ c ∈ t, (isLowerAlpha c || isDigitChar c) = true ∧ isPySpace c = false := by
  intro t ht c hc
  have ht2 := List.mem_of_mem_filter ht
  obtain ⟨hcs3, hns⟩ := splitWsF_token_chars _ _ t ht2 c hc
  obtain ⟨d, _, hdc⟩ := List.mem_map.mp hcs3
  have hclass := keepCleanChar_class d
  rw [hdc] at hclass
  refine ⟨?_, hns⟩
  simp only [Bool.or_eq_true] at hclass ⊢
  rcases hclass with (h1 | h2) | h3
  · exact Or.inl h1
  · exact Or.inr h2
  · rw [hns] at h3
    cases h3

theorem clean_str_chars (x : String) :
    ∀ c ∈ (clean_str x).toList, (isLowerAlpha c || isDigitChar c) = true ∨ c = ' ' := by
  intro c hc
  rw [clean_str_toList] at hc
  rcases joinSp_chars _ c hc with h1 | ⟨t, ht, hct⟩
  · exact Or.inr h1
  · exact Or.inl (cleanTokens_chars x t ht c hct).1

/-- Claim C9: the cleaner is idempotent on every input whose first-pass output
contains no further removable noise-word occurrence (the spec's proviso; the
first pass already removes color tokens and symbols, which can never
reappear). -/
theorem c9_clean_idempotent (x : String)
    (h : ∀ w ∈ noise_words, containsOcc w.toList (clean_str x).toList = false) :
    clean_str (clean_str x) = clean_str x := by
  have hTokNe := cleanTokens_ne_nil x
  have hTokCh := cleanTokens_chars x
  have hyChars := clean_str_chars x
  have h1 : (clean_str x).toList.map pyLowerChar = (clean_str x).toList :=
    map_fix _ (fun c hc => pyLowerChar_fix c (hyChars c hc))
  have h2 : noise_words.foldl (fun acc w => removeOcc w.toList acc) (clean_str x).toList
      = (clean_str x).toList := noiseFold_no_occ _ _ h
  have h3 : (clean_str x).toList.map keepCleanChar = (clean_str x).toList :=
    map_fix _ (fun c hc => keepCleanChar_fix c (hyChars c hc))
  have h4 : splitWs (clean_str x).toList = cleanTokens x := by
    rw [clean_str_toList]
    exact splitWs_joinSp _ hTokNe (fun t ht c hc => (hTokCh t ht c hc).2)
  have h5 : (cleanTokens x).filter (fun p => !colorTokens.contains p) = cleanTokens x := by
    unfold cleanTokens
    exact filter_self_idem _ _
  suffices hs : cleanTokens (clean_str x) = cleanTokens x by
    show String.mk (joinSp (cleanTokens (clean_str x))) = String.mk (joinSp (cleanTokens x))
    rw [hs]
  show (splitWs ((noise_words.foldl (fun acc w => removeOcc w.toList acc)
      ((clean_str x).toList.map pyLowerChar)).map keepCleanChar)).filter
        (fun p => !colorTokens.contains p) = cleanTokens x
  rw [h1, h2, h3, h4, h5]

/-- Witness for C9 at a concrete label with noise, color and symbol content. -/
theorem c9_witness :
    (∀ w ∈ noise_words, containsOcc w.toList (clean_str ("Tapiz Piel Sintetica Azul Rey 1.40m")).toList = false) ∧
    clean_str (clean_str ("Tapiz Piel Sintetica Azul Rey 1.40m"))
      = clean_str ("Tapiz Piel Sintetica Azul Rey 1.40m") :=
  ⟨by decide, c9_clean_idempotent ("Tapiz Piel Sintetica Azul Rey 1.40m") (by decide)⟩

/-! ## Claim C6: the monthly year-over-year comparison -/

theorem yearlySales_perm (rows : List Row) (m : Nat) :
    (yearlySales rows m).Perm
      ((((dfMonth rows m).map (fun r => r.fecha.year)).dedup).map (ysOf rows m)) :=
  (List.perm_insertionSort _ _).trans ((List.perm_insertionSort _ _).map _)

theorem ysOf_ventas (rows : List Row) (m y : Nat) :
    (ysOf rows m y).ventas = yearMonthRevenue rows m y := by
  show ratSum (((dfMonth rows m).filter (fun r => decide (r.fecha.year = y))).map
    (fun r => r.venta_neta)) = _
  rw [ratSum_eq]
  unfold yearMonthRevenue dfMonth
  congr 1
  rw [List.filter_filter]
  congr 1
  apply List.filter_congr
  intro r _
  simp [Bool.and_comm]

theorem historicalOf_perm (rows : List Row) (today : Date) :
    (historicalOf rows today).Perm ((histYears rows today).map (ysOf rows today.month)) := by
  unfold historicalOf histYears
  refine ((yearlySales_perm rows today.month).filter _).trans ?_
  rw [List.filter_map]
  have hfun : ((fun s : YearSales => decide (s.anio < today.year)) ∘ (ysOf rows today.month))
      = fun y => decide (y < today.year) := rfl
  rw [hfun]

theorem hist_sum_eq (rows : List Row) (today : Date) :
    ratSum ((historicalOf rows today).map (fun s => s.ventas))
      = ((histYears rows today).map (fun y => yearMonthRevenue rows today.month y)).sum := by
  rw [ratSum_eq]
  have hp := (historicalOf_perm rows today).map (fun s => s.ventas)
  rw [List.map_map] at hp
  have hfun : ((fun s : YearSales => s.ventas) ∘ (ysOf rows today.month))
      = fun y => yearMonthRevenue rows today.month y := by
    funext y
    exact ysOf_ventas rows today.month y
  rw [hfun] at hp
  exact hp.sum_eq

theorem hist_len_eq (rows : List Row) (today : Date) :
    (historicalOf rows today).length = (histYears rows today).length := by
  rw [(historicalOf_perm rows today).length_eq, List.length_map]

theorem avgSales_eq (rows : List Row) (today : Date) :
    avgSales rows today = histAverage rows today := by
  unfold avgSales histAverage
  by_cases h : histYears rows today = []
  · rw [if_pos h, if_pos (by rw [hist_len_eq, h]; rfl)]
  · have hlen : ¬ (historicalOf rows today).length = 0 := by
      rw [hist_len_eq]
      exact fun hh => h (List.length_eq_zero.mp hh)
    rw [if_neg hlen, if_neg h, qDiv_eq, hist_sum_eq, hist_len_eq]

theorem nodup_filter_eq (l : List Nat) (hn : l.Nodup) (a : Nat) (ha : a ∈ l) :
    l.filter (fun y => decide (y = a)) = [a] := by
  induction l with
  | nil => cases ha
  | cons b t ih =>
    rw [List.nodup_cons] at hn
    rw [List.filter_cons]
    rcases List.mem_cons.mp ha with h1 | h2
    · subst h1
      rw [if_pos (by simp)]
      have ht : t.filter (fun y => decide (y = a)) = [] := by
        rw [List.filter_eq_nil_iff]
        intro y hy hc
        rw [decide_eq_true_eq] at hc
        subst hc
        exact hn.1 hy
      rw [ht]
    · have hba : b ≠ a := by
        intro hb
        subst hb
        exact hn.1 h2
      rw [if_neg (by simpa using hba)]
      exact ih hn.2 h2

theorem currentSales_eq (rows : List Row) (today : Date) :
    currentSales rows today = currentMonthRevenue rows today := by
  unfold currentSales currentOf currentMonthRevenue
  rw [ratSum_eq]
  have hp := ((yearlySales_perm rows today.month).filter
    (fun s => decide (s.anio = today.year))).map (fun s => s.ventas)
  rw [List.filter_map] at hp
  have hfun : ((fun s : YearSales => decide (s.anio = today.year)) ∘ (ysOf rows today.month))
      = fun y => decide (y = today.year) := rfl
  rw [hfun, List.map_map] at hp
  have hfun2 : ((fun s : YearSales => s.ventas) ∘ (ysOf rows today.month))
      = fun y => yearMonthRevenue rows today.month y := by
    funext y
    exact ysOf_ventas rows today.month y
  rw [hfun2] at hp
  rw [hp.sum_eq]
  by_cases hmem : today.year ∈ ((dfMonth rows today.month).map (fun r => r.fecha.year)).dedup
  · rw [nodup_filter_eq _ (List.nodup_dedup _) _ hmem]
    simp
  · have hfil : (((dfMonth rows today.month).map (fun r => r.fecha.year)).dedup).filter
        (fun y => decide (y = today.year)) = [] := by
      rw [List.filter_eq_nil_iff]
      intro y hy hc
      rw [decide_eq_true_eq] at hc
      subst hc
      exact hmem hy
    have hrows : rows.filter
        (fun r => decide (r.fecha.month = today.month ∧ r.fecha.year = today.year)) = [] := by
      rw [List.filter_eq_nil_iff]
      intro r hr hc
      rw [decide_eq_true_eq] at hc
      apply hmem
      rw [List.mem_dedup]
      have hrm : r ∈ dfMonth rows today.month := by
        unfold dfMonth
        rw [List.mem_filter]
        exact ⟨hr, by rw [decide_eq_true_eq]; exact hc.1⟩
      have hmm := List.mem_map_of_mem (fun r : Row => r.fecha.year) hrm
      rw [← hc.2]
      exact hmm
    rw [hfil]
    unfold yearMonthRevenue
    rw [hrows]
    simp

theorem roundTo_zero : roundTo 2 0 = 0 := by decide

/-- Claim C6: in the monthly year-over-year comparison, the reported
historical average is the mean of the current calendar month's revenue over
the (data-bearing) years strictly before the current year, the suggested
target is 110% of that average, the reported current total is the current
month's partial total, the projection is
`current_partial_total / days_elapsed * days_in_month`, and with zero days
elapsed the projection is 0 without any division.  All monetary fields carry
the 2-decimal display rounding the code applies on return. -/
theorem c6_monthly_comparison_formulas (rows : List Row) (today : Date) :
    ∃ m, get_monthly_comparison_data (DataFrame.table rows) today = Except.ok m ∧
      m.promedio_historico = roundTo 2 (histAverage rows today) ∧
      m.meta_sugerida = roundTo 2 (histAverage rows today * (11 / 10)) ∧
      m.ventas_actuales = roundTo 2 (currentMonthRevenue rows today) ∧
      m.ventas_proyectadas = roundTo 2 (if 0 < today.day
        then currentMonthRevenue rows today / (((today.day : Nat)) : Rat)
          * (((daysInMonthOf today : Nat)) : Rat)
        else 0) ∧
      (today.day = 0 → m.ventas_proyectadas = 0) := by
  refine ⟨_, rfl, ?_, ?_, ?_, ?_, ?_⟩
  · exact congrArg (roundTo 2) (avgSales_eq rows today)
  · show roundTo 2 (qMul (avgSales rows today) (Rat.divInt 11 10)) = _
    rw [qMul_eq, avgSales_eq]
    congr 1
    norm_num [Rat.divInt_eq_div]
  · exact congrArg (roundTo 2) (currentSales_eq rows today)
  · show roundTo 2 (projectedSales rows today) = _
    congr 1
    unfold projectedSales
    by_cases hd : 0 < today.day
    · rw [if_pos hd, if_pos hd, qMul_eq, qDiv_eq, currentSales_eq]
    · rw [if_neg hd, if_neg hd]
  · intro h0
    show roundTo 2 (projectedSales rows today) = 0
    unfold projectedSales
    rw [if_neg (by omega), roundTo_zero]

/-- Witness for C6: on a concrete date with `day = 0` the instantiated claim
gives a zero projection with no division performed. -/
theorem c6_witness :
    ∃ m, get_monthly_comparison_data (DataFrame.table rows6) ⟨2024, 4, 0⟩ = Except.ok m ∧
      m.ventas_proyectadas = 0 := by
  obtain ⟨m, hm, _, _, _, _, h5⟩ := c6_monthly_comparison_formulas rows6 ⟨2024, 4, 0⟩
  exact ⟨m, hm, h5 rfl⟩

/-! ## Claim C5: RFM scoring of the top customer -/

theorem sortRats_sorted (l : List Rat) : (sortRats l).Sorted (fun a b : Rat => a ≤ b) :=
  List.sorted_insertionSort _ l

theorem sortRats_perm (l : List Rat) : (sortRats l).Perm l := List.perm_insertionSort _ l

theorem sorted_getD_mono (xs : List Rat) (hs : xs.Sorted (fun a b : Rat => a ≤ b))
    (i j : Nat) (hij : i ≤ j) (hj : j < xs.length) : xs.getD i 0 ≤ xs.getD j 0 := by
  rcases Nat.eq_or_lt_of_le hij with h1 | h2
  · subst h1
    exact le_refl _
  · rw [List.getD_eq_getElem xs 0 (by omega), List.getD_eq_getElem xs 0 hj]
    have hfin : (⟨i, by omega⟩ : Fin xs.length) < ⟨j, hj⟩ := by
      simp only [Fin.mk_lt_mk]
      omega
    have := @List.Sorted.rel_get_of_lt Rat (fun a b : Rat => a ≤ b) xs hs ⟨i, by omega⟩ ⟨j, hj⟩ hfin
    simpa using this

theorem getD_mem (l : List Rat) (i : Nat) (h : i < l.length) : l.getD i 0 ∈ l := by
  rw [List.getD_eq_getElem l 0 h]
  exact List.getElem_mem _

/-- Every quantile of a sorted list dominates any lower bound of the list. -/
theorem quantileAt_ge (xs : List Rat) (hs : xs.Sorted (fun a b : Rat => a ≤ b))
    (hne : xs ≠ []) (p : Rat) (hp : 0 ≤ p) (v : Rat)
    (hlb : ∀ y ∈ xs, v ≤ y) : v ≤ quantileAt xs p := by
  have hn : xs.length ≠ 0 := fun hh => hne (List.length_eq_zero.mp hh)
  simp only [quantileAt, qMul_eq, qAdd_eq, qSub_eq]
  rw [if_neg hn]
  set h : Rat := p * ((xs.length - 1 : Nat) : Rat) with hh
  have hh0 : 0 ≤ h := mul_nonneg hp (by positivity)
  have hcast : ((⌊h⌋.toNat : Nat) : Rat) = ((⌊h⌋ : Int) : Rat) := by
    rw [← Int.cast_natCast, Int.toNat_of_nonneg (Int.floor_nonneg.mpr hh0)]
  by_cases hbr : ⌊h⌋.toNat + 1 < xs.length
  · rw [if_pos hbr]
    have hlo : v ≤ xs.getD ⌊h⌋.toNat 0 := hlb _ (getD_mem xs _ (by omega))
    have hflo : (0 : Rat) ≤ h - ((⌊h⌋.toNat : Nat) : Rat) := by
      rw [hcast]
      have := Int.floor_le h
      linarith
    have hdelta : (0 : Rat) ≤ xs.getD (⌊h⌋.toNat + 1) 0 - xs.getD ⌊h⌋.toNat 0 := by
      have := sorted_getD_mono xs hs ⌊h⌋.toNat (⌊h⌋.toNat + 1) (by omega) hbr
      linarith
    nlinarith [mul_nonneg hflo hdelta]
  · rw [if_neg hbr]
    exact hlb _ (getD_mem xs _ (by omega))

/-- The `p = 1` quantile of a sorted list is its last entry. -/
theorem quantileAt_one (xs : List Rat) (hne : xs ≠ []) :
    quantileAt xs 1 = xs.getD (xs.length - 1) 0 := by
  have hn : xs.length ≠ 0 := fun hh => hne (List.length_eq_zero.mp hh)
  simp only [quantileAt, qMul_eq, qAdd_eq, qSub_eq, one_mul]
  rw [if_neg hn, Int.floor_natCast, Int.toNat_natCast, if_neg (by omega)]

/-- Monotonicity of the interpolated quantile on a sorted list. -/
theorem quantileAt_mono (xs : List Rat) (hs : xs.Sorted (fun a b : Rat => a ≤ b))
    (p q : Rat) (hp : 0 ≤ p) (hpq : p ≤ q) (hq : q ≤ 1) :
    quantileAt xs p ≤ quantileAt xs q := by
  simp only [quantileAt, qMul_eq, qAdd_eq, qSub_eq]
  by_cases hn : xs.length = 0
  · rw [if_pos hn, if_pos hn]
  · rw [if_neg hn, if_neg hn]
    have hnn : (0 : Rat) ≤ ((xs.length - 1 : Nat) : Rat) := by positivity
    set hP : Rat := p * ((xs.length - 1 : Nat) : Rat) with hhP
    set hQ : Rat := q * ((xs.length - 1 : Nat) : Rat) with hhQ
    have hP0 : 0 ≤ hP := mul_nonneg hp hnn
    have hQ0 : 0 ≤ hQ := le_trans hP0 (by apply mul_le_mul_of_nonneg_right hpq hnn)
    have hPQ : hP ≤ hQ := mul_le_mul_of_nonneg_right hpq hnn
    have hQub : hQ ≤ ((xs.length - 1 : Nat) : Rat) := by
      calc hQ ≤ 1 * ((xs.length - 1 : Nat) : Rat) := by
            apply mul_le_mul_of_nonneg_right hq hnn
        _ = _ := one_mul _
    have hiPQ : ⌊hP⌋.toNat ≤ ⌊hQ⌋.toNat := Int.toNat_le_toNat (Int.floor_le_floor hPQ)
    have hiQub : ⌊hQ⌋.toNat ≤ xs.length - 1 := by
      have h1 : ⌊hQ⌋ ≤ ((xs.length - 1 : Nat) : Int) := by
        rw [← @Int.floor_natCast Rat _ _ (xs.length - 1)]
        exact Int.floor_le_floor hQub
      omega
    have hcastP : ((⌊hP⌋.toNat : Nat) : Rat) = ((⌊hP⌋ : Int) : Rat) := by
      rw [← Int.cast_natCast, Int.toNat_of_nonneg (Int.floor_nonneg.mpr hP0)]
    have hcastQ : ((⌊hQ⌋.toNat : Nat) : Rat) = ((⌊hQ⌋ : Int) : Rat) := by
      rw [← Int.cast_natCast, Int.toNat_of_nonneg (Int.floor_nonneg.mpr hQ0)]
    by_cases hbrP : ⌊hP⌋.toNat + 1 < xs.length
    · have hfP0 : (0 : Rat) ≤ hP - ((⌊hP⌋.toNat : Nat) : Rat) := by
        rw [hcastP]
        have := Int.floor_le hP
        linarith
      have hfP1 : hP - ((⌊hP⌋.toNat : Nat) : Rat) ≤ 1 := by
        rw [hcastP]
        have := Int.lt_floor_add_one hP
        push_cast at this ⊢
        linarith
      have hDp : (0 : Rat) ≤ xs.getD (⌊hP⌋.toNat + 1) 0 - xs.getD ⌊hP⌋.toNat 0 := by
        have := sorted_getD_mono xs hs ⌊hP⌋.toNat (⌊hP⌋.toNat + 1) (by omega) hbrP
        linarith
      rw [if_pos hbrP]
      by_cases hbrQ : ⌊hQ⌋.toNat + 1 < xs.length
      · rw [if_pos hbrQ]
        rcases Nat.eq_or_lt_of_le hiPQ with hEq | hLt
        · rw [← hEq]
          have hfPQ : hP - ((⌊hP⌋.toNat : Nat) : Rat) ≤ hQ - ((⌊hP⌋.toNat : Nat) : Rat) := by
            linarith
          nlinarith [hDp]
        · have hv1 : xs.getD ⌊hP⌋.toNat 0
              + (hP - ((⌊hP⌋.toNat : Nat) : Rat)) * (xs.getD (⌊hP⌋.toNat + 1) 0 - xs.getD ⌊hP⌋.toNat 0)
              ≤ xs.getD (⌊hP⌋.toNat + 1) 0 := by
            nlinarith [hDp]
          have hv2 : xs.getD (⌊hP⌋.toNat + 1) 0 ≤ xs.getD ⌊hQ⌋.toNat 0 :=
            sorted_getD_mono xs hs _ _ (by omega) (by omega)
          have hfQ0 : (0 : Rat) ≤ hQ - ((⌊hQ⌋.toNat : Nat) : Rat) := by
            rw [hcastQ]
            have := Int.floor_le hQ
            linarith
          have hDq : (0 : Rat) ≤ xs.getD (⌊hQ⌋.toNat + 1) 0 - xs.getD ⌊hQ⌋.toNat 0 := by
            have := sorted_getD_mono xs hs ⌊hQ⌋.toNat (⌊hQ⌋.toNat + 1) (by omega) hbrQ
            linarith
          nlinarith [mul_nonneg hfQ0 hDq]
      · rw [if_neg hbrQ]
        have hv1 : xs.getD ⌊hP⌋.toNat 0
            + (hP - ((⌊hP⌋.toNat : Nat) : Rat)) * (xs.getD (⌊hP⌋.toNat + 1) 0 - xs.getD ⌊hP⌋.toNat 0)
            ≤ xs.getD (⌊hP⌋.toNat + 1) 0 := by
          nlinarith [hDp]
        have hv2 : xs.getD (⌊hP⌋.toNat + 1) 0 ≤ xs.getD (xs.length - 1) 0 :=
          sorted_getD_mono xs hs _ _ (by omega) (by omega)
        linarith
    · rw [if_neg hbrP]
      by_cases hbrQ : ⌊hQ⌋.toNat + 1 < xs.length
      · omega
      · rw [if_neg hbrQ]

theorem getD_mem_any {α : Type} (l : List α) (i : Nat) (d : α) (h : i < l.length) :
    l.getD i d ∈ l := by
  rw [List.getD_eq_getElem l d h]
  exact List.getElem_mem _

theorem getD_range (n i : Nat) (h : i < n) : (List.range n).getD i 0 = i := by
  rw [List.getD_eq_getElem _ _ (by simpa using h)]
  exact List.getElem_range i _

theorem six_of_length (l : List Rat) (h : l.length = 6) :
    ∃ a b c d e f, l = [a, b, c, d, e, f] := by
  rcases l with _ | ⟨a, _ | ⟨b, _ | ⟨c, _ | ⟨d, _ | ⟨e, _ | ⟨f, _ | ⟨g, t⟩⟩⟩⟩⟩⟩⟩
  · simp at h
  · simp at h
  · simp at h
  · simp at h
  · simp at h
  · simp at h
  · exact ⟨a, b, c, d, e, f, rfl⟩
  · simp at h

theorem dedupAdj_sublist : ∀ l : List Rat, (dedupAdj l).Sublist l
  | [] => by simp [dedupAdj]
  | [a] => by simp [dedupAdj]
  | a :: b :: rest => by
    simp only [dedupAdj]
    by_cases hab : a = b
    · rw [if_pos hab]
      exact (dedupAdj_sublist (b :: rest)).cons a
    · rw [if_neg hab]
      exact (dedupAdj_sublist (b :: rest)).cons₂ a

theorem dedupAdj_head : ∀ (a : Rat) (l : List Rat), (dedupAdj (a :: l)).head? = some a
  | _, [] => by simp [dedupAdj]
  | a, b :: rest => by
    simp only [dedupAdj]
    by_cases hab : a = b
    · rw [if_pos hab, hab]
      exact dedupAdj_head b rest
    · rw [if_neg hab]
      rfl

theorem dedupAdj_ne_nil (a : Rat) (l : List Rat) : dedupAdj (a :: l) ≠ [] := by
  intro h
  have hh := dedupAdj_head a l
  rw [h] at hh
  exact Option.noConfusion hh

theorem dedupAdj_getLast? : ∀ l : List Rat, (dedupAdj l).getLast? = l.getLast?
  | [] => rfl
  | [a] => rfl
  | a :: b :: rest => by
    simp only [dedupAdj]
    by_cases hab : a = b
    · rw [if_pos hab, dedupAdj_getLast? (b :: rest), List.getLast?_cons_cons]
    · rw [if_neg hab]
      obtain ⟨x, t, hx⟩ := List.exists_cons_of_ne_nil (dedupAdj_ne_nil b rest)
      rw [hx, List.getLast?_cons_cons, ← hx, dedupAdj_getLast? (b :: rest),
        List.getLast?_cons_cons]

theorem dedupAdj_chain_lt : ∀ l : List Rat,
    l.Chain' (fun a b : Rat => a ≤ b) → (dedupAdj l).Chain' (fun a b : Rat => a < b)
  | [], _ => by simp [dedupAdj]
  | [a], _ => by simp [dedupAdj]
  | a :: b :: rest, h => by
    obtain ⟨hab, h2⟩ := List.chain'_cons.mp h
    simp only [dedupAdj]
    by_cases he : a = b
    · rw [if_pos he]
      exact dedupAdj_chain_lt (b :: rest) h2
    · rw [if_neg he]
      refine List.chain'_cons'.mpr ⟨?_, dedupAdj_chain_lt (b :: rest) h2⟩
      intro y hy
      rw [dedupAdj_head b rest, Option.mem_some_iff] at hy
      subst hy
      exact lt_of_le_of_ne hab he

theorem quintileEdges_chain (xs : List Rat) (hs : xs.Sorted (fun a b : Rat => a ≤ b)) :
    (quintileEdges xs).Chain' (fun a b : Rat => a ≤ b) := by
  unfold quintileEdges
  refine List.Chain'.cons ?_ (List.Chain'.cons ?_ (List.Chain'.cons ?_
    (List.Chain'.cons ?_ (List.Chain'.cons ?_ (List.chain'_singleton _)))))
  · exact quantileAt_mono xs hs 0 _ le_rfl (by decide) (by decide)
  · exact quantileAt_mono xs hs _ _ (by decide) (by decide) (by decide)
  · exact quantileAt_mono xs hs _ _ (by decide) (by decide) (by decide)
  · exact quantileAt_mono xs hs _ _ (by decide) (by decide) (by decide)
  · exact quantileAt_mono xs hs _ 1 (by decide) (by decide) le_rfl

theorem quintileEdges_lb (xs : List Rat) (hs : xs.Sorted (fun a b : Rat => a ≤ b))
    (hne : xs ≠ []) (v : Rat) (hlb : ∀ y ∈ xs, v ≤ y) :
    ∀ e ∈ quintileEdges xs, v ≤ e := by
  intro e he
  simp only [quintileEdges, List.mem_cons, List.not_mem_nil, or_false] at he
  rcases he with rfl | rfl | rfl | rfl | rfl | rfl
  · exact quantileAt_ge xs hs hne 0 le_rfl v hlb
  · exact quantileAt_ge xs hs hne _ (by decide) v hlb
  · exact quantileAt_ge xs hs hne _ (by decide) v hlb
  · exact quantileAt_ge xs hs hne _ (by decide) v hlb
  · exact quantileAt_ge xs hs hne _ (by decide) v hlb
  · exact quantileAt_ge xs hs hne 1 (by decide) v hlb

theorem sorted_getLast_of_max (xs : List Rat) (hs : xs.Sorted (fun a b : Rat => a ≤ b))
    (M : Rat) (hmem : M ∈ xs) (hub : ∀ x ∈ xs, x ≤ M) :
    xs.getD (xs.length - 1) 0 = M := by
  obtain ⟨k, hk, hkM⟩ := List.mem_iff_getElem.mp hmem
  have h1 : xs.getD k 0 ≤ xs.getD (xs.length - 1) 0 :=
    sorted_getD_mono xs hs k (xs.length - 1) (by omega) (by omega)
  have h2 : xs.getD (xs.length - 1) 0 ≤ M := hub _ (getD_mem xs _ (by omega))
  rw [List.getD_eq_getElem xs 0 hk, hkM] at h1
  exact le_antisymm h2 h1

theorem qcut5_ok (data : List Rat) (labels : List Nat) (rS : List Nat)
    (h : qcut5 data labels = Except.ok rS) :
    labels.length = (dedupAdj (quintileEdges (sortRats data))).length - 1 ∧
      rS = data.map (fun v => labels.getD
        (((dedupAdj (quintileEdges (sortRats data))).tail.takeWhile
          (fun e => decide (e < v))).length) 0) := by
  simp only [qcut5] at h
  by_cases hc : labels.length = (dedupAdj (quintileEdges (sortRats data))).length - 1
  · rw [if_pos hc] at h
    injection h with h2
    exact ⟨hc, h2.symm⟩
  · rw [if_neg hc] at h
    exact Except.noConfusion h

theorem qcut5_top_label (data : List Rat) (labels : List Nat) (rS : List Nat)
    (h : qcut5 data labels = Except.ok rS) (hlab : labels.length = 5)
    (i : Nat) (hi : i < data.length)
    (hmax : ∀ x ∈ data, x ≤ data.getD i 0) :
    rS.getD i 0 = labels.getD 4 0 := by
  obtain ⟨hc, hrS⟩ := qcut5_ok data labels rS h
  have hlen6 : (dedupAdj (quintileEdges (sortRats data))).length = 6 := by omega
  obtain ⟨e0, e1, e2, e3, e4, e5, h6⟩ := six_of_length _ hlen6
  have hchain : (dedupAdj (quintileEdges (sortRats data))).Chain'
      (fun a b : Rat => a < b) :=
    dedupAdj_chain_lt _ (quintileEdges_chain _ (sortRats_sorted data))
  rw [h6] at hchain
  simp only [List.chain'_cons] at hchain
  obtain ⟨h01, h12, h23, h34, h45, -⟩ := hchain
  have hxne : sortRats data ≠ [] := by
    intro hh
    have hlen := (sortRats_perm data).length_eq
    rw [hh] at hlen
    simp at hlen
    omega
  have hgl := dedupAdj_getLast? (quintileEdges (sortRats data))
  rw [h6] at hgl
  simp only [quintileEdges, List.getLast?_cons_cons] at hgl
  have he5q : e5 = quantileAt (sortRats data) 1 := by simpa using hgl
  have hsmax : (sortRats data).getD ((sortRats data).length - 1) 0 = data.getD i 0 :=
    sorted_getLast_of_max _ (sortRats_sorted data) _
      ((sortRats_perm data).mem_iff.mpr (getD_mem data i hi))
      (fun x hx => hmax x ((sortRats_perm data).mem_iff.mp hx))
  have he5 : e5 = data.getD i 0 := by
    rw [he5q, quantileAt_one _ hxne, hsmax]
  have hf1 : decide (e1 < data.getD i 0) = true := decide_eq_true (by linarith)
  have hf2 : decide (e2 < data.getD i 0) = true := decide_eq_true (by linarith)
  have hf3 : decide (e3 < data.getD i 0) = true := decide_eq_true (by linarith)
  have hf4 : decide (e4 < data.getD i 0) = true := decide_eq_true (by linarith)
  have hf5 : decide (e5 < data.getD i 0) = false := decide_eq_false (by
    rw [he5]
    exact lt_irrefl _)
  rw [hrS, getD_map_of_lt _ data i hi 0 0, h6]
  simp only [List.tail_cons, List.takeWhile_cons, hf1, hf2, hf3, hf4, hf5, if_true,
    Bool.false_eq_true, if_false, List.length_cons, List.length_nil]

theorem qcut5_bottom_label (data : List Rat) (labels : List Nat) (rS : List Nat)
    (h : qcut5 data labels = Except.ok rS) (hlab : labels.length = 5)
    (i : Nat) (hi : i < data.length)
    (hmin : ∀ x ∈ data, data.getD i 0 ≤ x) :
    rS.getD i 0 = labels.getD 0 0 := by
  obtain ⟨hc, hrS⟩ := qcut5_ok data labels rS h
  have hlen6 : (dedupAdj (quintileEdges (sortRats data))).length = 6 := by omega
  obtain ⟨e0, e1, e2, e3, e4, e5, h6⟩ := six_of_length _ hlen6
  have hxne : sortRats data ≠ [] := by
    intro hh
    have hlen := (sortRats_perm data).length_eq
    rw [hh] at hlen
    simp at hlen
    omega
  have hlb : ∀ y ∈ sortRats data, data.getD i 0 ≤ y := fun y hy =>
    hmin y ((sortRats_perm data).mem_iff.mp hy)
  have he1m : e1 ∈ quintileEdges (sortRats data) := by
    refine (dedupAdj_sublist _).subset ?_
    rw [h6]
    simp
  have he1 : data.getD i 0 ≤ e1 :=
    quintileEdges_lb (sortRats data) (sortRats_sorted data) hxne _ hlb e1 he1m
  have hf1 : decide (e1 < data.getD i 0) = false := decide_eq_false (not_lt.mpr he1)
  rw [hrS, getD_map_of_lt _ data i hi 0 0, h6]
  simp only [List.tail_cons, List.takeWhile_cons, hf1, Bool.false_eq_true, if_false,
    List.length_nil]

theorem rankFirst_length (ds : List Rat) : (rankFirst ds).length = ds.length := by
  simp [rankFirst]

theorem filter_two_disjoint_le (p q : Rat → Bool) (hpq : ∀ x : Rat, p x = true → q x = false) :
    ∀ l : List Rat, (l.filter p).length + (l.filter q).length ≤ l.length
  | [] => by simp
  | a :: t => by
    have ih := filter_two_disjoint_le p q hpq t
    rw [List.filter_cons, List.filter_cons]
    by_cases hp : p a = true
    · rw [if_pos hp, if_neg (by rw [hpq a hp]; exact Bool.false_ne_true)]
      simp only [List.length_cons]
      omega
    · rw [if_neg hp]
      by_cases hq : q a = true
      · rw [if_pos hq]
        simp only [List.length_cons]
        omega
      · rw [if_neg hq]
        simp only [List.length_cons]
        omega

theorem rankFirst_le (ds : List Rat) :
    ∀ x ∈ rankFirst ds, x ≤ ((ds.length : Nat) : Rat) := by
  intro x hx
  simp only [rankFirst, List.mem_map, List.mem_range] at hx
  obtain ⟨j, hj, hxe⟩ := hx
  rw [← hxe, Nat.cast_le]
  set v := ds.getD j 0 with hv
  have hsplit : ds = ds.take j ++ v :: ds.drop (j + 1) := by
    conv_lhs => rw [← List.take_append_drop j ds]
    congr 1
    rw [List.drop_eq_getElem_cons hj, hv, List.getD_eq_getElem ds 0 hj]
  have hlen := congrArg List.length hsplit
  simp only [List.length_append, List.length_cons] at hlen
  have hAsplit : (ds.filter (fun x => decide (x < v))).length
      = ((ds.take j).filter (fun x => decide (x < v))).length
        + ((ds.drop (j + 1)).filter (fun x => decide (x < v))).length := by
    conv_lhs => rw [hsplit]
    rw [List.filter_append, List.filter_cons, if_neg (by simp)]
    simp [List.length_append]
  have hdisj := filter_two_disjoint_le (fun x => decide (x < v))
    (fun x => decide (x = v))
    (fun x hx2 => by
      simp only [decide_eq_true_eq] at hx2
      exact decide_eq_false (ne_of_lt hx2)) (ds.take j)
  have hD := List.length_filter_le (fun x => decide (x < v)) (ds.drop (j + 1))
  omega

theorem rankFirst_max (ds : List Rat) (i : Nat) (hi : i < ds.length)
    (hmax : ∀ j, j < ds.length → j ≠ i → ds.getD j 0 < ds.getD i 0) :
    (rankFirst ds).getD i 0 = ((ds.length : Nat) : Rat) := by
  unfold rankFirst
  rw [getD_map_of_lt _ _ i (by simpa using hi) 0 0, getD_range _ _ hi]
  simp only [Nat.cast_inj]
  set v := ds.getD i 0 with hv
  have htake : ∀ x ∈ ds.take i, x < v := by
    intro x hx
    obtain ⟨k, hk, hkx⟩ := List.mem_iff_getElem.mp hx
    have hk1 : k < i := by
      simp only [List.length_take] at hk
      omega
    have hk2 : k < ds.length := by omega
    rw [List.getElem_take ds] at hkx
    rw [← hkx, ← List.getD_eq_getElem ds 0 hk2]
    exact hmax k hk2 (by omega)
  have hdrop : ∀ x ∈ ds.drop (i + 1), x < v := by
    intro x hx
    obtain ⟨k, hk, hkx⟩ := List.mem_iff_getElem.mp hx
    have hk2 : i + 1 + k < ds.length := by
      simp only [List.length_drop] at hk
      omega
    rw [List.getElem_drop ds] at hkx
    rw [← hkx, ← List.getD_eq_getElem ds 0 hk2]
    exact hmax (i + 1 + k) hk2 (by omega)
  have hB : (ds.take i).filter (fun x => decide (x = v)) = [] :=
    List.filter_eq_nil_iff.mpr (fun x hx => by
      simp only [decide_eq_true_eq]
      exact ne_of_lt (htake x hx))
  have hsplit : ds = ds.take i ++ v :: ds.drop (i + 1) := by
    conv_lhs => rw [← List.take_append_drop i ds]
    congr 1
    rw [List.drop_eq_getElem_cons hi, hv, List.getD_eq_getElem ds 0 hi]
  have hA : ds.filter (fun x => decide (x < v))
      = ds.take i ++ ds.drop (i + 1) := by
    conv_lhs => rw [hsplit]
    rw [List.filter_append, List.filter_cons, if_neg (by simp),
      List.filter_eq_self.mpr (fun x hx => decide_eq_true (htake x hx)),
      List.filter_eq_self.mpr (fun x hx => decide_eq_true (hdrop x hx))]
  have hlen := congrArg List.length hsplit
  simp only [List.length_append, List.length_cons] at hlen
  rw [hA, hB]
  simp only [List.length_append, List.length_nil]
  omega

theorem rfmNames_nodup (rows : List Row) : (rfmNames rows).Nodup := by
  unfold rfmNames groupKeys
  exact (List.perm_insertionSort _ _).nodup_iff.mpr (List.nodup_dedup _)

/-- Claim C5 (amended): `pd.qcut(..., duplicates='drop')` can make
`calculate_rfm_scores` raise outright, but whenever it succeeds, the customer
with the strictly highest revenue, the strictly highest distinct-invoice
frequency and the strictly most recent purchase receives R = F = M = 5 and
the segment 🏆 VIP. -/
theorem c5_top_customer_vip (rows : List Row) (c : String) (res : List RfmRow)
    (hok : calculate_rfm_scores (DataFrame.table rows) = Except.ok res)
    (hc : c ∈ rfmNames rows)
    (hrec : ∀ nm ∈ rfmNames rows, nm ≠ c → custLastDays rows nm < custLastDays rows c)
    (hfreq : ∀ nm ∈ rfmNames rows, nm ≠ c → custFreq rows nm < custFreq rows c)
    (hrev : ∀ nm ∈ rfmNames rows, nm ≠ c → custMoney rows nm < custMoney rows c) :
    ∃ rr ∈ res, rr.cliente = c ∧ rr.R_score = 5 ∧ rr.F_score = 5 ∧ rr.M_score = 5 ∧
      rr.segmento = ("🏆 VIP") := by
  have hcore : rfmCore rows = Except.ok res := hok
  rcases hR : qcut5 (recenciasOf rows) [5, 4, 3, 2, 1] with eR | rS
  · exfalso
    have hco : rfmCore rows = Except.error eR := by
      unfold rfmCore
      rw [hR]
      rfl
    rw [hco] at hcore
    exact Except.noConfusion hcore
  rcases hF : qcut5 (rankFirst (frecuenciasOf rows)) [1, 2, 3, 4, 5] with eF | fS
  · exfalso
    have hco : rfmCore rows = Except.error eF := by
      unfold rfmCore
      rw [hR, hF]
      rfl
    rw [hco] at hcore
    exact Except.noConfusion hcore
  rcases hM : qcut5 (rankFirst (montosOf rows)) [1, 2, 3, 4, 5] with eM | mS
  · exfalso
    have hco : rfmCore rows = Except.error eM := by
      unfold rfmCore
      rw [hR, hF, hM]
      rfl
    rw [hco] at hcore
    exact Except.noConfusion hcore
  have hres : res = rfmAssemble rows rS fS mS := by
    have hco : rfmCore rows = Except.ok (rfmAssemble rows rS fS mS) := by
      unfold rfmCore
      rw [hR, hF, hM]
      rfl
    rw [hco] at hcore
    injection hcore with h2
    exact h2.symm
  obtain ⟨i, hi, hgi⟩ := List.mem_iff_getElem.mp hc
  have hnd : (rfmNames rows).Nodup := rfmNames_nodup rows
  have hnc : (rfmNames rows).getD i ("") = c := by
    rw [List.getD_eq_getElem _ _ hi]
    exact hgi
  have hother : ∀ j, j < (rfmNames rows).length → j ≠ i →
      (rfmNames rows).getD j ("") ∈ rfmNames rows ∧ (rfmNames rows).getD j ("") ≠ c := by
    intro j hj hne
    refine ⟨getD_mem_any _ _ _ hj, ?_⟩
    intro hEq
    apply hne
    have h1 : (rfmNames rows).getD j ("") = (rfmNames rows).getD i ("") := by
      rw [hEq, hnc]
    rw [List.getD_eq_getElem _ _ hj, List.getD_eq_getElem _ _ hi] at h1
    exact (List.Nodup.getElem_inj_iff hnd).mp h1
  have hRlen : (recenciasOf rows).length = (rfmNames rows).length := by
    simp [recenciasOf]
  have hRi : (recenciasOf rows).getD i 0
      = ((rfmToday rows - custLastDays rows c : Int) : Rat) := by
    unfold recenciasOf
    rw [getD_map_of_lt _ _ i hi ("") 0, hnc]
  have hRmin : ∀ x ∈ recenciasOf rows, (recenciasOf rows).getD i 0 ≤ x := by
    intro x hx
    rw [hRi]
    simp only [recenciasOf, List.mem_map] at hx
    obtain ⟨nm, hnm, rfl⟩ := hx
    rw [Int.cast_le]
    have hle : custLastDays rows nm ≤ custLastDays rows c := by
      by_cases hnc2 : nm = c
      · rw [hnc2]
      · exact le_of_lt (hrec nm hnm hnc2)
    omega
  have hR5 : rS.getD i 0 = 5 := by
    have hb := qcut5_bottom_label (recenciasOf rows) [5, 4, 3, 2, 1] rS hR rfl i
      (by omega) hRmin
    simpa using hb
  have hFlen : (frecuenciasOf rows).length = (rfmNames rows).length := by
    simp [frecuenciasOf]
  have hFmax : ∀ j, j < (frecuenciasOf rows).length → j ≠ i →
      (frecuenciasOf rows).getD j 0 < (frecuenciasOf rows).getD i 0 := by
    intro j hj hji
    have hj2 : j < (rfmNames rows).length := by omega
    unfold frecuenciasOf
    rw [getD_map_of_lt _ _ j hj2 ("") 0, getD_map_of_lt _ _ i hi ("") 0, hnc]
    obtain ⟨hmem, hne2⟩ := hother j hj2 hji
    exact Nat.cast_lt.mpr (hfreq _ hmem hne2)
  have hFi : (rankFirst (frecuenciasOf rows)).getD i 0
      = (((frecuenciasOf rows).length : Nat) : Rat) :=
    rankFirst_max _ i (by omega) hFmax
  have hFub : ∀ x ∈ rankFirst (frecuenciasOf rows),
      x ≤ (rankFirst (frecuenciasOf rows)).getD i 0 := by
    intro x hx
    rw [hFi]
    exact rankFirst_le _ x hx
  have hF5 : fS.getD i 0 = 5 := by
    have hb := qcut5_top_label (rankFirst (frecuenciasOf rows)) [1, 2, 3, 4, 5] fS hF rfl i
      (by rw [rankFirst_length]; omega) hFub
    simpa using hb
  have hMlen : (montosOf rows).length = (rfmNames rows).length := by
    simp [montosOf]
  have hMmax : ∀ j, j < (montosOf rows).length → j ≠ i →
      (montosOf rows).getD j 0 < (montosOf rows).getD i 0 := by
    intro j hj hji
    have hj2 : j < (rfmNames rows).length := by omega
    unfold montosOf
    rw [getD_map_of_lt _ _ j hj2 ("") 0, getD_map_of_lt _ _ i hi ("") 0, hnc]
    obtain ⟨hmem, hne2⟩ := hother j hj2 hji
    exact hrev _ hmem hne2
  have hMi : (rankFirst (montosOf rows)).getD i 0
      = (((montosOf rows).length : Nat) : Rat) :=
    rankFirst_max _ i (by omega) hMmax
  have hMub : ∀ x ∈ rankFirst (montosOf rows),
      x ≤ (rankFirst (montosOf rows)).getD i 0 := by
    intro x hx
    rw [hMi]
    exact rankFirst_le _ x hx
  have hM5 : mS.getD i 0 = 5 := by
    have hb := qcut5_top_label (rankFirst (montosOf rows)) [1, 2, 3, 4, 5] mS hM rfl i
      (by rw [rankFirst_length]; omega) hMub
    simpa using hb
  have hreslen : i < res.length := by
    rw [hres]
    unfold rfmAssemble
    simp only [List.length_map, List.length_range]
    exact hi
  refine ⟨res.getD i rfmDefault, getD_mem_any res i rfmDefault hreslen, ?_, ?_, ?_, ?_, ?_⟩
  · rw [hres]
    unfold rfmAssemble
    rw [getD_map_of_lt _ _ i (by simpa using hi) 0 rfmDefault, getD_range _ _ hi]
    exact hnc
  · rw [hres]
    unfold rfmAssemble
    rw [getD_map_of_lt _ _ i (by simpa using hi) 0 rfmDefault, getD_range _ _ hi]
    exact hR5
  · rw [hres]
    unfold rfmAssemble
    rw [getD_map_of_lt _ _ i (by simpa using hi) 0 rfmDefault, getD_range _ _ hi]
    exact hF5
  · rw [hres]
    unfold rfmAssemble
    rw [getD_map_of_lt _ _ i (by simpa using hi) 0 rfmDefault, getD_range _ _ hi]
    exact hM5
  · rw [hres]
    unfold rfmAssemble
    rw [getD_map_of_lt _ _ i (by simpa using hi) 0 rfmDefault, getD_range _ _ hi]
    show assign_segment (rS.getD i 0) (fS.getD i 0) (mS.getD i 0) = ("🏆 VIP")
    rw [hR5, hF5, hM5]
    decide

/-- Claim C5 (counterexample to the letter of the claim): on `cRows` the top
customer `ALFA SA` is the strict maximum in revenue, frequency and recency,
yet `calculate_rfm_scores` raises the pandas `ValueError` instead of scoring
anyone, because two other customers share a recency and the deduplicated
quintile edges no longer match the five labels. -/
theorem c5_rfm_crash_counterexample :
    calculate_rfm_scores (DataFrame.table cRows)
        = Except.error ("Bin labels must be one fewer than the number of bin edges") ∧
      ("ALFA SA") ∈ rfmNames cRows ∧
      (∀ nm ∈ rfmNames cRows, nm ≠ ("ALFA SA") →
        custLastDays cRows nm < custLastDays cRows ("ALFA SA")) ∧
      (∀ nm ∈ rfmNames cRows, nm ≠ ("ALFA SA") →
        custFreq cRows nm < custFreq cRows ("ALFA SA")) ∧
      (∀ nm ∈ rfmNames cRows, nm ≠ ("ALFA SA") →
        custMoney cRows nm < custMoney cRows ("ALFA SA")) := by
  decide

theorem c5_witness :
    ∃ rr ∈ wRes, rr.cliente = ("ALFA SA") ∧ rr.R_score = 5 ∧ rr.F_score = 5 ∧
      rr.M_score = 5 ∧ rr.segmento = ("🏆 VIP") :=
  c5_top_customer_vip wRows ("ALFA SA") wRes (by decide) (by decide) (by decide)
    (by decide) (by decide)

/-! ## Claim C10 -/

/-- Claim C10: `get_kpis` never divides by zero — on every table whose
distinct invoice count is zero the returned `avg_order_value` is exactly 0
(the guarded branch), and with at least one distinct invoice it equals the
total revenue divided by the distinct invoice count. -/
theorem c10_get_kpis_division_guard (rows : List Row) :
    ∃ k, get_kpis (DataFrame.table rows) = Except.ok k ∧
      (nuniqueStr (rows.map (fun r => r.factura_id)) = 0 → k.avg_order_value = 0) ∧
      (0 < nuniqueStr (rows.map (fun r => r.factura_id)) →
        k.avg_order_value
          = (rows.map (fun r => r.venta_neta)).sum
              / ((nuniqueStr (rows.map (fun r => r.factura_id)) : Nat) : Rat)) := by
  refine ⟨_, rfl, ?_, ?_⟩
  · intro h0
    simp only [get_kpis, DataFrame.rowsOr, Except.bind, pure, h0]
    rfl
  · intro hpos
    simp only [get_kpis, DataFrame.rowsOr, Except.bind, pure]
    rw [if_pos hpos, qDiv_eq, ratSum_eq]

/-- Witness for C10: on a concrete table with two distinct invoices and $60
revenue the theorem's division branch gives an average order value of $30. -/
theorem c10_witness :
    0 < nuniqueStr (kpiRows.map (fun r => r.factura_id)) ∧
    ∃ k, get_kpis (DataFrame.table kpiRows) = Except.ok k ∧ k.avg_order_value = 30 := by
  obtain ⟨k, hk, h0, hpos⟩ := c10_get_kpis_division_guard kpiRows
  have hval : get_kpis (DataFrame.table kpiRows) = Except.ok (⟨60, 2, 3, 30⟩ : Kpis) := by decide
  rw [hval] at hk
  cases hk
  exact ⟨by decide, _, hval, rfl⟩

end DashboardVentas
